import Mathlib

/-!
Verification of the proc-parser front end: a shallow embedding of the
two-layer scanner (buffer cursor, raw tokenizer), the grammar-aware
scanner with automatic semicolon insertion, the generic list-parsing
protocol and the recursive-descent grammar, together with theorems
settling the frozen claims about them.

Loops of the source are embedded as fuel-indexed structural recursions;
each public wrapper supplies fuel `buffer length + 1 - offset`, which is
sufficient because every loop iteration consumes at least one character.
-/

set_option linter.unusedVariables false

/-- Source position: byte offset, line and column, all zero-based
(src/scanner/pos.rs, `Position`). -/
structure Position where
  Offset : Nat
  Line : Nat
  Column : Nat
deriving Repr, DecidableEq

/-- A begin/end range of positions (src/scanner/pos.rs, `PosRange`). -/
structure PosRange where
  Begin : Position
  End : Position
deriving Repr, DecidableEq

/-- Integer literal base tags. The defining file src/scanner/token.rs is
not in the snapshot; the four constructors are reconstructed from their
uses `IntFormat::HEX/DEC/OCT/BIN` in src/scanner/scanner.rs and the
spec's base set {binary, octal, decimal, hexadecimal}. -/
inductive IntFormat where
  | BIN
  | OCT
  | DEC
  | HEX
deriving Repr, DecidableEq

/-- Raw token kinds. The defining file src/scanner/token.rs is not in the
snapshot; the constructors are reconstructed from their uses in
src/scanner/scanner.rs and src/parser/parser.rs and from the spec's raw
token data model. -/
inductive BasicTokenKind where
  | Ident
  | Operator
  | Int (format : IntFormat)
  | Float
  | String
  | Char
  | Delimiter
  | Comment
deriving Repr, DecidableEq

/-- A raw token: range, kind and literal characters (`BasicToken`,
reconstructed from uses; literal is `Vec<char>` in the source). -/
structure BasicToken where
  Pos : PosRange
  Kind : BasicTokenKind
  Literal : List Char
deriving Repr, DecidableEq

/-- End-of-input error carrying the position (src/scanner/scanner.rs,
`EOFError`). -/
structure EOFError where
  Pos : Position
deriving Repr, DecidableEq

/-- Malformed-input error carrying the offending range
(src/scanner/scanner.rs, `BadFormatError`; the source names the field
`PosRange` after its type, spelled `Pos` here). -/
structure BadFormatError where
  Pos : PosRange
deriving Repr, DecidableEq

/-- Raw scanner failure (src/scanner/scanner.rs, `BasicScannerError`). -/
inductive BasicScannerError where
  | EOF (e : EOFError)
  | BadFormat (e : BadFormatError)
deriving Repr, DecidableEq

/-- The character cursor: current position over an in-memory buffer
(src/scanner/scanner.rs, `BufferScanner`). -/
structure BufferScanner where
  Pos : Position
  Buffer : List Char
deriving Repr, DecidableEq

/-- Cursor lookup of the current character; fails at end of input
(src/scanner/scanner.rs, `BufferScanner::GetChar`). Out-of-range offsets
never occur on reachable states; `getD` stands for the source's direct
index. -/
def BufferScanner.GetChar (bs : BufferScanner) : Except EOFError Char :=
  if bs.Pos.Offset = bs.Buffer.length then
    .error ⟨bs.Pos⟩
  else
    .ok (bs.Buffer.getD bs.Pos.Offset default)

/-- Advance the cursor one character, updating line/column/offset
(src/scanner/scanner.rs, `BufferScanner::Move`). -/
def BufferScanner.Move (bs : BufferScanner) : Except EOFError (Char × BufferScanner) :=
  match bs.GetChar with
  | .error e => .error e
  | .ok ch =>
    let pos :=
      if ch = '\n' then
        Position.mk (bs.Pos.Offset + 1) (bs.Pos.Line + 1) 0
      else
        Position.mk (bs.Pos.Offset + 1) bs.Pos.Line (bs.Pos.Column + 1)
    .ok (ch, { bs with Pos := pos })

/-- Fuel for a loop starting at the cursor's current state: one more than
the number of characters left, so a loop consuming one character per
iteration never exhausts it. -/
def BufferScanner.fuel (bs : BufferScanner) : Nat :=
  bs.Buffer.length + 1 - bs.Pos.Offset

/-- Loop body of `GotoNextLine`: advance until a newline is consumed. -/
def gotoNextLineLoop : Nat → BufferScanner → Except EOFError BufferScanner
  | 0, bs => .error ⟨bs.Pos⟩
  | fuel + 1, bs =>
    match bs.Move with
    | .error e => .error e
    | .ok (ch, bs') => if ch = '\n' then .ok bs' else gotoNextLineLoop fuel bs'

/-- Advance until a newline is consumed or input ends
(src/scanner/scanner.rs, `BufferScanner::GotoNextLine`). -/
def BufferScanner.GotoNextLine (bs : BufferScanner) : Except EOFError BufferScanner :=
  gotoNextLineLoop bs.fuel bs

/-- The raw tokenizer: cursor plus the configured delimiter and
whitespace character sets (src/scanner/scanner.rs, `BasicScanner`). The
source names the cursor field after its type; it is `BS` here. -/
structure BasicScanner where
  BS : BufferScanner
  Delimiters : List Char
  Whitespaces : List Char
deriving Repr, DecidableEq

def BasicScanner.GetChar (s : BasicScanner) : Except BasicScannerError Char :=
  match s.BS.GetChar with
  | .error e => .error (.EOF e)
  | .ok ch => .ok ch

def BasicScanner.Move (s : BasicScanner) : Except BasicScannerError (Char × BasicScanner) :=
  match s.BS.Move with
  | .error e => .error (.EOF e)
  | .ok (ch, bs') => .ok (ch, { s with BS := bs' })

def BasicScanner.GotoNextLine (s : BasicScanner) : Except BasicScannerError BasicScanner :=
  match s.BS.GotoNextLine with
  | .error e => .error (.EOF e)
  | .ok bs' => .ok { s with BS := bs' }

def BasicScanner.GetPos (s : BasicScanner) : Position := s.BS.Pos

def BasicScanner.fuel (s : BasicScanner) : Nat := s.BS.fuel

/-- The source slice between two offsets,
`Buffer[begin.Offset..pos.Offset]` (macro `collect_from_to!`). -/
def collectFromTo (buffer : List Char) (beginOff endOff : Nat) : List Char :=
  (buffer.drop beginOff).take (endOff - beginOff)

/-- Shared shape of the source's `while cond(peek) { advance }` loops
(whitespace skipping, identifier/digit runs, operator runs); each
instance below passes the character condition of its source loop.
A `GetChar` failure propagates, exactly as `?` does in the source. -/
def runLoop (cond : Char → Bool) : Nat → BasicScanner → Except BasicScannerError BasicScanner
  | 0, s => .error (.EOF ⟨s.GetPos⟩)
  | fuel + 1, s =>
    match s.GetChar with
    | .error e => .error e
    | .ok ch =>
      if cond ch then
        match s.Move with
        | .error e => .error e
        | .ok (_, s') => runLoop cond fuel s'
      else
        .ok s

/-- Skip configured whitespace characters (src/scanner/scanner.rs,
`BasicScanner::SkipWhitespaces`). -/
def BasicScanner.SkipWhitespaces (s : BasicScanner) : Except BasicScannerError BasicScanner :=
  runLoop (fun ch => s.Whitespaces.contains ch) s.fuel s

/-- Scan a line comment through the end of line (src/scanner/scanner.rs,
`BasicScanner::ScanLineComment`). -/
def BasicScanner.ScanLineComment (s : BasicScanner) : Except BasicScannerError (BasicToken × BasicScanner) :=
  let b := s.GetPos
  match s.GotoNextLine with
  | .error e => .error e
  | .ok s' =>
    .ok (⟨⟨b, s'.GetPos⟩, .Comment, collectFromTo s'.BS.Buffer b.Offset s'.GetPos.Offset⟩, s')

/-- Loop body of `ScanQuotedComment`: after a `*` the next character is
consumed unconditionally and compared with `/`. -/
def scanQuotedLoop : Nat → BasicScanner → Except BasicScannerError BasicScanner
  | 0, s => .error (.EOF ⟨s.GetPos⟩)
  | fuel + 1, s =>
    match s.Move with
    | .error e => .error e
    | .ok (ch, s₁) =>
      if ch = '*' then
        match s₁.Move with
        | .error e => .error e
        | .ok (ch₂, s₂) => if ch₂ = '/' then .ok s₂ else scanQuotedLoop fuel s₂
      else
        scanQuotedLoop fuel s₁

/-- Scan a block comment body until `*/` (src/scanner/scanner.rs,
`BasicScanner::ScanQuotedComment`). -/
def BasicScanner.ScanQuotedComment (s : BasicScanner) : Except BasicScannerError (BasicToken × BasicScanner) :=
  let b := s.GetPos
  match scanQuotedLoop s.fuel s with
  | .error e => .error e
  | .ok s' =>
    .ok (⟨⟨b, s'.GetPos⟩, .Comment, collectFromTo s'.BS.Buffer b.Offset s'.GetPos.Offset⟩, s')

/-- Comment dispatch on the character after the leading slash
(src/scanner/scanner.rs, `BasicScanner::ScanComment`). -/
def BasicScanner.ScanComment (s : BasicScanner) : Except BasicScannerError (BasicToken × BasicScanner) :=
  let b := s.GetPos
  match s.Move with
  | .error e => .error e
  | .ok (ch, s₁) =>
    match ch with
    | '/' => s₁.ScanLineComment
    | '*' => s₁.ScanQuotedComment
    | _ => .error (.BadFormat ⟨⟨b, s₁.GetPos⟩⟩)

/-- Character class of the identifier-run loop; the source's Unicode
`is_numeric` is modelled by its ASCII-digit fragment. -/
def identCond (ch : Char) : Bool :=
  ch.isAlpha || ch.isDigit || ch = '_'

/-- Scan a maximal identifier run (src/scanner/scanner.rs,
`BasicScanner::ScanIdent`). -/
def BasicScanner.ScanIdent (s : BasicScanner) : Except BasicScannerError (BasicToken × BasicScanner) :=
  let b := s.GetPos
  match runLoop identCond s.fuel s with
  | .error e => .error e
  | .ok s' =>
    .ok (⟨⟨b, s'.GetPos⟩, .Ident, collectFromTo s'.BS.Buffer b.Offset s'.GetPos.Offset⟩, s')

def hexCond (ch : Char) : Bool :=
  ('0' ≤ ch && ch ≤ '9') || ('a' ≤ ch && ch ≤ 'f')

def decCond (ch : Char) : Bool :=
  '0' ≤ ch && ch ≤ '9'

def octCond (ch : Char) : Bool :=
  '0' ≤ ch && ch ≤ '7'

def binCond (ch : Char) : Bool :=
  ch = '0' || ch = '1'

/-- Scan a maximal hexadecimal digit run starting at the current position
(src/scanner/scanner.rs, `BasicScanner::ScanHex`): the `0x` prefix was
consumed by the caller and lies before `begin`. -/
def BasicScanner.ScanHex (s : BasicScanner) : Except BasicScannerError (BasicToken × BasicScanner) :=
  let b := s.GetPos
  match runLoop hexCond s.fuel s with
  | .error e => .error e
  | .ok s' =>
    .ok (⟨⟨b, s'.GetPos⟩, .Int .HEX, collectFromTo s'.BS.Buffer b.Offset s'.GetPos.Offset⟩, s')

/-- Scan a maximal decimal digit run (src/scanner/scanner.rs,
`BasicScanner::ScanDec`). -/
def BasicScanner.ScanDec (s : BasicScanner) : Except BasicScannerError (BasicToken × BasicScanner) :=
  let b := s.GetPos
  match runLoop decCond s.fuel s with
  | .error e => .error e
  | .ok s' =>
    .ok (⟨⟨b, s'.GetPos⟩, .Int .DEC, collectFromTo s'.BS.Buffer b.Offset s'.GetPos.Offset⟩, s')

/-- Scan a maximal octal digit run (src/scanner/scanner.rs,
`BasicScanner::ScanOct`). -/
def BasicScanner.ScanOct (s : BasicScanner) : Except BasicScannerError (BasicToken × BasicScanner) :=
  let b := s.GetPos
  match runLoop octCond s.fuel s with
  | .error e => .error e
  | .ok s' =>
    .ok (⟨⟨b, s'.GetPos⟩, .Int .OCT, collectFromTo s'.BS.Buffer b.Offset s'.GetPos.Offset⟩, s')

/-- Scan a maximal binary digit run (src/scanner/scanner.rs,
`BasicScanner::ScanBin`). -/
def BasicScanner.ScanBin (s : BasicScanner) : Except BasicScannerError (BasicToken × BasicScanner) :=
  let b := s.GetPos
  match runLoop binCond s.fuel s with
  | .error e => .error e
  | .ok s' =>
    .ok (⟨⟨b, s'.GetPos⟩, .Int .BIN, collectFromTo s'.BS.Buffer b.Offset s'.GetPos.Offset⟩, s')

/-- Numeric-literal dispatch (src/scanner/scanner.rs,
`BasicScanner::ScanDigit`): `0x`/`0o`/`0b` select a base; any other
character after `0` is `BadFormat`; otherwise rewind and scan decimal. -/
def BasicScanner.ScanDigit (s : BasicScanner) : Except BasicScannerError (BasicToken × BasicScanner) :=
  let b := s.GetPos
  match s.Move with
  | .error e => .error e
  | .ok (ch, s₁) =>
    match ch with
    | '0' =>
      match s₁.Move with
      | .error e => .error e
      | .ok (ch₂, s₂) =>
        match ch₂ with
        | 'x' => s₂.ScanHex
        | 'o' => s₂.ScanOct
        | 'b' => s₂.ScanBin
        | _ => .error (.BadFormat ⟨⟨b, s₂.GetPos⟩⟩)
    | _ => BasicScanner.ScanDec { s₁ with BS := { s₁.BS with Pos := b } }

/-- One hexadecimal digit's value, upper or lower case, as accepted by
Rust's integer parsing. -/
def hexDigitVal (ch : Char) : Option Nat :=
  if '0' ≤ ch && ch ≤ '9' then some (ch.toNat - '0'.toNat)
  else if 'a' ≤ ch && ch ≤ 'f' then some (ch.toNat - 'a'.toNat + 10)
  else if 'A' ≤ ch && ch ≤ 'F' then some (ch.toNat - 'A'.toNat + 10)
  else none

def hexValAux : List Char → Nat → Option Nat
  | [], acc => some acc
  | ch :: rest, acc =>
    match hexDigitVal ch with
    | none => none
    | some d => hexValAux rest (16 * acc + d)

/-- Models Rust `u32::from_str_radix(s, 16)` as called by
`ScanUnicodeHex`: an optional leading `+`, then a nonempty run of hex
digits of either case; values not below 2^32 overflow and fail. -/
def u32FromStrRadix16 (chars : List Char) : Option Nat :=
  let digits := match chars with
    | '+' :: rest => rest
    | _ => chars
  match digits with
  | [] => none
  | _ =>
    match hexValAux digits 0 with
    | none => none
    | some v => if v < 4294967296 then some v else none

/-- Models Rust `char::from_u32`: some exactly on valid Unicode scalar
values. -/
def charFromU32 (n : Nat) : Option Char :=
  if h : n.isValidChar then some (Char.ofNatAux n h) else none

/-- Consume exactly `n` characters, collecting them in order (the
`for _ in 0..runesN { seq.push(self.Move()?) }` loop of
`ScanUnicodeHex`). -/
def moveN : Nat → BasicScanner → Except BasicScannerError (List Char × BasicScanner)
  | 0, s => .ok ([], s)
  | n + 1, s =>
    match s.Move with
    | .error e => .error e
    | .ok (ch, s') =>
      match moveN n s' with
      | .error e => .error e
      | .ok (chars, s'') => .ok (ch :: chars, s'')

/-- Decode a `\x`/`\u`/`\U` escape body of `runesN` hex characters
(src/scanner/scanner.rs, `BasicScanner::ScanUnicodeHex`). -/
def BasicScanner.ScanUnicodeHex (runesN : Nat) (s : BasicScanner) : Except BasicScannerError (Char × BasicScanner) :=
  let b := s.GetPos
  match moveN runesN s with
  | .error e => .error e
  | .ok (seq, s') =>
    match u32FromStrRadix16 seq with
    | none => .error (.BadFormat ⟨⟨b, s'.GetPos⟩⟩)
    | some v =>
      match charFromU32 v with
      | none => .error (.BadFormat ⟨⟨b, s'.GetPos⟩⟩)
      | some ch => .ok (ch, s')

/-- Decode one escape sequence after the backslash
(src/scanner/scanner.rs, `BasicScanner::ScanEscapeChar`). -/
def BasicScanner.ScanEscapeChar (quote : Char) (s : BasicScanner) : Except BasicScannerError (Char × BasicScanner) :=
  let b := s.GetPos
  match s.Move with
  | .error e => .error e
  | .ok (ch, s₁) =>
    match ch with
    | 'n' => .ok ('\n', s₁)
    | 't' => .ok ('\t', s₁)
    | 'r' => .ok ('\r', s₁)
    | '\\' => .ok ('\\', s₁)
    | 'x' => s₁.ScanUnicodeHex 2
    | 'u' => s₁.ScanUnicodeHex 4
    | 'U' => s₁.ScanUnicodeHex 8
    | _ =>
      if ch = quote then .ok (quote, s₁)
      else .error (.BadFormat ⟨⟨b, s₁.GetPos⟩⟩)

/-- Loop body of `ScanString`: accumulate decoded characters until the
closing quote. -/
def scanStringLoop (quote : Char) : Nat → BasicScanner → List Char → Except BasicScannerError (List Char × BasicScanner)
  | 0, s, _ => .error (.EOF ⟨s.GetPos⟩)
  | fuel + 1, s, acc =>
    match s.Move with
    | .error e => .error e
    | .ok (ch, s₁) =>
      if ch = '\\' then
        match s₁.ScanEscapeChar quote with
        | .error e => .error e
        | .ok (esc, s₂) => scanStringLoop quote fuel s₂ (acc ++ [esc])
      else if ch = quote then
        .ok (acc, s₁)
      else
        scanStringLoop quote fuel s₁ (acc ++ [ch])

/-- Scan a quoted literal: skip the opening quote, decode characters
until the closing quote; always tagged `String`
(src/scanner/scanner.rs, `BasicScanner::ScanString`). -/
def BasicScanner.ScanString (quote : Char) (s : BasicScanner) : Except BasicScannerError (BasicToken × BasicScanner) :=
  let b := s.GetPos
  match s.Move with
  | .error e => .error e
  | .ok (_, s₁) =>
    match scanStringLoop quote s₁.fuel s₁ [] with
    | .error e => .error e
    | .ok (seq, s₂) => .ok (⟨⟨b, s₂.GetPos⟩, .String, seq⟩, s₂)

/-- Rust `char::is_ascii_punctuation`. -/
def isAsciiPunct (ch : Char) : Bool :=
  ('!' ≤ ch && ch ≤ '/') || (':' ≤ ch && ch ≤ '@') ||
  ('[' ≤ ch && ch ≤ '\x60') || ('\x7b' ≤ ch && ch ≤ '~')

/-- Scan a maximal operator run, stopping before a quote, a delimiter or
a non-punctuation character (src/scanner/scanner.rs,
`BasicScanner::ScanOperator`). -/
def BasicScanner.ScanOperator (s : BasicScanner) : Except BasicScannerError (BasicToken × BasicScanner) :=
  let b := s.GetPos
  match runLoop (fun ch => !(ch = '"' || ch = '\'' || !isAsciiPunct ch || s.Delimiters.contains ch)) s.fuel s with
  | .error e => .error e
  | .ok s' =>
    .ok (⟨⟨b, s'.GetPos⟩, .Operator, collectFromTo s'.BS.Buffer b.Offset s'.GetPos.Offset⟩, s')

/-- The source's Unicode `char::is_alphabetic`, modelled by its ASCII
fragment. -/
def isAlphabeticM (ch : Char) : Bool := ch.isAlpha

/-- The source's Unicode `char::is_numeric`, modelled by its ASCII
fragment. -/
def isNumericM (ch : Char) : Bool := ch.isDigit

/-- Raw-token dispatch (src/scanner/scanner.rs, `BasicScanner::Scan`).
The guards appear in the source's arm order; in particular the
delimiter-set test precedes the `/` comment arm. In the source the
delimiter token's `Pos` field is computed before `Move` runs in its
`Literal` field, so the recorded range is empty. -/
def BasicScanner.Scan (s : BasicScanner) : Except BasicScannerError (BasicToken × BasicScanner) :=
  match s.SkipWhitespaces with
  | .error e => .error e
  | .ok s₀ =>
    let b := s₀.GetPos
    match s₀.GetChar with
    | .error e => .error e
    | .ok ch =>
      if isAlphabeticM ch then s₀.ScanIdent
      else if isNumericM ch then s₀.ScanDigit
      else if s₀.Delimiters.contains ch then
        match s₀.Move with
        | .error e => .error e
        | .ok (c, s₁) => .ok (⟨⟨b, s₀.GetPos⟩, .Delimiter, [c]⟩, s₁)
      else if ch = '_' then s₀.ScanIdent
      else if ch = '"' then s₀.ScanString '"'
      else if ch = '\'' then s₀.ScanString '\''
      else if ch = '/' then s₀.ScanComment
      else if isAsciiPunct ch then s₀.ScanOperator
      else .error (.EOF ⟨s₀.GetPos⟩)

/-- Grammar token kinds (src/ast/token.rs, `def_tokens!` expansion of
`TokenKind`). -/
inductive TokenKind where
  | None
  | EOF
  | Ident
  | Operator
  | Int (format : IntFormat)
  | Float
  | String
  | Char
  | DEFINE
  | ARROW
  | FIELD
  | LPAREN
  | LBRACK
  | LBRACE
  | RPAREN
  | RBRACK
  | RBRACE
  | COLON
  | SEMICOLON
  | COMMA
  | DOT
  | NEWLINE
deriving Repr, DecidableEq

/-- A grammar token (src/ast/token.rs, `Token`). -/
structure Token where
  Pos : PosRange
  Kind : TokenKind
  Literal : String
deriving Repr, DecidableEq

/-- `Token::default()`: zero range, kind `None`, empty literal. -/
def Token.default : Token :=
  ⟨⟨⟨0, 0, 0⟩, ⟨0, 0, 0⟩⟩, .None, ""⟩

/-- Alias for the grammar token type, used inside the `Parser`
namespace where the bare name resolves to the parser's `Token` field. -/
abbrev Tok := Token

/-- The keyword table built by `TokenKind::KeywordLookup()`
(src/ast/token.rs): reserved literal strings mapped to their kinds. -/
def keywordTable : List (String × TokenKind) :=
  [(":=", .DEFINE), ("=>", .ARROW), ("$", .FIELD),
   ("(", .LPAREN), ("[", .LBRACK), ("\x7b", .LBRACE),
   (")", .RPAREN), ("]", .RBRACK), ("\x7d", .RBRACE),
   (":", .COLON), (";", .SEMICOLON), (",", .COMMA), (".", .DOT),
   ("\n", .NEWLINE)]

/-- Discriminant of a `TokenKind`, so that `tagMatches` can model
`std::mem::discriminant` equality. -/
def TokenKind.tag : TokenKind → Nat
  | .None => 0
  | .EOF => 1
  | .Ident => 2
  | .Operator => 3
  | .Int _ => 4
  | .Float => 5
  | .String => 6
  | .Char => 7
  | .DEFINE => 8
  | .ARROW => 9
  | .FIELD => 10
  | .LPAREN => 11
  | .LBRACK => 12
  | .LBRACE => 13
  | .RPAREN => 14
  | .RBRACK => 15
  | .RBRACE => 16
  | .COLON => 17
  | .SEMICOLON => 18
  | .COMMA => 19
  | .DOT => 20
  | .NEWLINE => 21

/-- Kind-tag-only equality, the `tag_matches!` macro of src/lib.rs
(`std::mem::discriminant` comparison: payloads such as the integer base
are ignored). -/
def tagMatches (a b : TokenKind) : Bool :=
  a.tag == b.tag

/-- Mismatch error of `Parser::Match` (src/parser/diagnosis.rs,
`UnexpectedTokenError`). -/
structure UnexpectedTokenError where
  Want : TokenKind
  Have : Token
deriving Repr, DecidableEq

/-- Parser failure (src/parser/parser.rs, `ParserError`), extended by
two constructors the Rust type expresses differently: `ConfigFault`
models the panic (`.expect`) raised when a delimiter literal is missing
from the keyword table, and `OutOfFuel` is the fuel artifact of this
embedding, unreachable for the fuel the wrappers supply. -/
inductive ParserError where
  | ScannerError (e : BasicScannerError)
  | UnexpectedToken (e : UnexpectedTokenError)
  | ConfigFault
  | OutOfFuel
deriving Repr, DecidableEq

/-- The grammar-aware scanner/parser state (src/parser/parser.rs,
`Parser`). -/
structure Parser where
  Scanner : BasicScanner
  KeywordLookup : List (String × TokenKind)
  Token : Token
  CompleteSemicolon : Bool
deriving Repr, DecidableEq

/-- `Parser::new`: the configured delimiter and whitespace sets, the
keyword table, a default token and a cleared semicolon flag. -/
def Parser.new (buffer : List Char) : Parser :=
  ⟨⟨⟨⟨0, 0, 0⟩, buffer⟩,
    ['(', ')', '[', ']', '\x7b', '\x7d', ',', ';', '/', '\n'],
    [' ', '\t', '\r']⟩,
   keywordTable, Token.default, false⟩

def Parser.GetPos (p : Parser) : Position := p.Scanner.GetPos

/-- Loop body of `Parser::Scan` (src/parser/parser.rs). The recursive
calls are the source's `return self.Scan()` on a comment token and on a
discarded newline. On a raw-scanner `EndOfInput` with the current token
not yet `EOF`, the current token's kind is set to `EOF` and returned. -/
def Parser.scanLoop : Nat → Parser → Except ParserError (Tok × Parser)
  | 0, _ => .error .OutOfFuel
  | fuel + 1, p =>
    match p.Scanner.Scan with
    | .error (.EOF e) =>
      match p.Token.Kind with
      | .EOF => .error (.ScannerError (.EOF e))
      | _ =>
        let tok := { p.Token with Kind := .EOF }
        .ok (tok, { p with Token := tok })
    | .error e => .error (.ScannerError e)
    | .ok (bt, s') =>
      let p₁ := { p with Scanner := s' }
      match bt.Kind with
      | .Comment => Parser.scanLoop fuel p₁
      | bk =>
        let literal := bt.Literal.asString
        let kindE : Except ParserError TokenKind :=
          match bk with
          | .Ident => .ok ((List.lookup literal p.KeywordLookup).getD .Ident)
          | .Operator => .ok ((List.lookup literal p.KeywordLookup).getD .Operator)
          | .Delimiter =>
            match List.lookup literal p.KeywordLookup with
            | some v => .ok v
            | none => .error .ConfigFault
          | .Int format => .ok (.Int format)
          | .Float => .ok .Float
          | .String => .ok .String
          | .Char => .ok .Char
          | .Comment => .error .ConfigFault
        match kindE with
        | .error e => .error e
        | .ok kind =>
          match kind with
          | .NEWLINE =>
            if p.CompleteSemicolon then
              let tok : Tok := ⟨bt.Pos, .SEMICOLON, ";"⟩
              .ok (tok, { p₁ with CompleteSemicolon := false, Token := tok })
            else
              Parser.scanLoop fuel p₁
          | _ =>
            let pending : Bool :=
              match kind with
              | .Ident => true
              | .Int _ => true
              | .RBRACE => true
              | .RPAREN => true
              | _ => false
            let tok : Tok := ⟨bt.Pos, kind, bt.Literal.asString⟩
            .ok (tok, { p₁ with CompleteSemicolon := pending, Token := tok })

/-- `Parser::Scan`, with the wrapper-supplied fuel. -/
def Parser.Scan (p : Parser) : Except ParserError (Tok × Parser) :=
  Parser.scanLoop p.Scanner.fuel p

/-- `Parser::GetTokenAndScan`: copy the current token, advance, return
the copy. -/
def Parser.GetTokenAndScan (p : Parser) : Except ParserError (Tok × Parser) :=
  let tok := p.Token
  match p.Scan with
  | .error e => .error e
  | .ok (_, p') => .ok (tok, p')

/-- `Parser::Match`: tag-only comparison of the current token's kind,
consuming nothing. -/
def Parser.Match (p : Parser) (term : TokenKind) : Except ParserError Unit :=
  if tagMatches p.Token.Kind term then .ok ()
  else .error (.UnexpectedToken ⟨term, p.Token⟩)

/-- `Parser::MatchAndScan`: `Match`, then `Scan`. -/
def Parser.MatchAndScan (p : Parser) (term : TokenKind) : Except ParserError (Tok × Parser) :=
  match p.Match term with
  | .error e => .error e
  | .ok _ => p.Scan

/-- The generic list node (src/ast/ast.rs, `List<T>`): elements plus the
delimiter and terminator kinds that closed it. -/
structure List' (α : Type) where
  Pos : PosRange
  Elements : List α
  Delimiter : TokenKind
  Term : TokenKind
deriving Repr, DecidableEq

/-- Loop body of `List::Expect` (src/ast/parse.rs): stop before the
terminator; after an element consume a delimiter and continue, or match
the terminator without consuming it. -/
def listLoop (elem : Parser → Except ParserError (α × Parser)) :
    Nat → Parser → TokenKind → TokenKind → Except ParserError (List α × Parser)
  | 0, _, _, _ => .error .OutOfFuel
  | fuel + 1, p, delimiter, terminator =>
    if tagMatches p.Token.Kind terminator then
      .ok ([], p)
    else
      match elem p with
      | .error e => .error e
      | .ok (x, p₁) =>
        if tagMatches p₁.Token.Kind delimiter then
          match p₁.Scan with
          | .error e => .error e
          | .ok (_, p₂) =>
            match listLoop elem fuel p₂ delimiter terminator with
            | .error e => .error e
            | .ok (xs, p₃) => .ok (x :: xs, p₃)
        else
          match p₁.Match terminator with
          | .error e => .error e
          | .ok _ => .ok ([x], p₁)

/-- `List::Expect` (src/ast/parse.rs), generic over the element
production, with explicit fuel for the unbounded source loop. -/
def ListExpect (elem : Parser → Except ParserError (α × Parser))
    (fuel : Nat) (p : Parser) (delimiter terminator : TokenKind) :
    Except ParserError (List' α × Parser) :=
  let b := p.GetPos
  match listLoop elem fuel p delimiter terminator with
  | .error e => .error e
  | .ok (xs, p') => .ok (⟨⟨b, p'.GetPos⟩, xs, delimiter, terminator⟩, p')

namespace AST

/-- AST identifier node (src/ast/ast.rs, `Ident`). -/
structure Ident where
  Pos : PosRange
  Token : Token
deriving Repr, DecidableEq

/-- AST field node (src/ast/ast.rs, `Field`): a `$name: rule` binding. -/
structure Field where
  Pos : PosRange
  Name : Ident
  Rule : Ident
deriving Repr, DecidableEq

/-- AST list-rule node (src/ast/ast.rs, `ListRule`). -/
structure ListRule where
  Pos : PosRange
  Field : Field
  Delimiter : Ident
  Term : Ident
deriving Repr, DecidableEq

mutual

/-- AST node union (src/ast/ast.rs, `Node`). -/
inductive Node where
  | None
  | Ident (v : Ident)
  | Field (v : Field)
  | Match (v : Branch)
  | ListRule (v : ListRule)

/-- AST pattern node (src/ast/ast.rs, `Pattern`): one
`lookahead => body` arm. -/
inductive Pattern where
  | mk (Pos : PosRange) (Ahead : Ident) (Rule : List' Node)

/-- AST branch node (src/ast/ast.rs, `Branch`): a block of patterns. -/
inductive Branch where
  | mk (Pos : PosRange) (Patterns : List' Pattern)

end

def Pattern.Ahead : Pattern → Ident
  | .mk _ a _ => a

def Pattern.Rule : Pattern → List' Node
  | .mk _ _ r => r

def Branch.Patterns : Branch → List' Pattern
  | .mk _ ps => ps

/-- `Ident::Expect` (src/ast/parse.rs): take the current token, require
kind `Ident`. -/
def IdentExpect (p : Parser) : Except ParserError (Ident × Parser) :=
  match p.GetTokenAndScan with
  | .error e => .error e
  | .ok (token, p₁) =>
    match token.Kind with
    | .Ident => .ok (⟨token.Pos, token⟩, p₁)
    | _ => .error (.UnexpectedToken ⟨.Ident, token⟩)

/-- `Field::Expect` (src/ast/parse.rs): `$` Ident `:` Ident. -/
def FieldExpect (p : Parser) : Except ParserError (Field × Parser) :=
  let b := p.GetPos
  match p.MatchAndScan .FIELD with
  | .error e => .error e
  | .ok (_, p₁) =>
    match IdentExpect p₁ with
    | .error e => .error e
    | .ok (name, p₂) =>
      match p₂.MatchAndScan .COLON with
      | .error e => .error e
      | .ok (_, p₃) =>
        match IdentExpect p₃ with
        | .error e => .error e
        | .ok (rule, p₄) => .ok (⟨⟨b, p₄.GetPos⟩, name, rule⟩, p₄)

/-- `ListRule::Expect` (src/ast/parse.rs):
`(` Field `,` Ident `,` Ident `)`. -/
def ListRuleExpect (p : Parser) : Except ParserError (ListRule × Parser) :=
  let b := p.GetPos
  match p.MatchAndScan .LPAREN with
  | .error e => .error e
  | .ok (_, p₁) =>
    match FieldExpect p₁ with
    | .error e => .error e
    | .ok (field, p₂) =>
      match p₂.MatchAndScan .COMMA with
      | .error e => .error e
      | .ok (_, p₃) =>
        match IdentExpect p₃ with
        | .error e => .error e
        | .ok (delim, p₄) =>
          match p₄.MatchAndScan .COMMA with
          | .error e => .error e
          | .ok (_, p₅) =>
            match IdentExpect p₅ with
            | .error e => .error e
            | .ok (term, p₆) =>
              match p₆.MatchAndScan .RPAREN with
              | .error e => .error e
              | .ok (_, p₇) => .ok (⟨⟨b, p₇.GetPos⟩, field, delim, term⟩, p₇)

/-- `Node::Expect` (src/ast/parse.rs): predictive dispatch on the
current token's kind. The mutually recursive productions
Node/Pattern/Branch of the source are embedded with the branch
production passed as the function argument `branchF`, so that the only
recursion is the fuel recursion in `BranchExpect`; each body otherwise
mirrors its source function one-to-one. -/
def NodeExpectF (branchF : Parser → Except ParserError (Branch × Parser))
    (p : Parser) : Except ParserError (Node × Parser) :=
  match p.Token.Kind with
  | .Ident =>
    match IdentExpect p with
    | .error e => .error e
    | .ok (v, p') => .ok (.Ident v, p')
  | .FIELD =>
    match FieldExpect p with
    | .error e => .error e
    | .ok (v, p') => .ok (.Field v, p')
  | .LBRACE =>
    match branchF p with
    | .error e => .error e
    | .ok (v, p') => .ok (.Match v, p')
  | .LPAREN =>
    match ListRuleExpect p with
    | .error e => .error e
    | .ok (v, p') => .ok (.ListRule v, p')
  | _ => .error (.UnexpectedToken ⟨.None, p.Token⟩)

/-- `List::Expect` monomorphised at `T = Node` (the loop of
src/ast/parse.rs with `T::Expect` fixed to `Node::Expect`), as used by
`Pattern::Expect`. -/
def nodeListLoop (branchF : Parser → Except ParserError (Branch × Parser)) :
    Nat → Parser → TokenKind → TokenKind → Except ParserError (List Node × Parser)
  | 0, _, _, _ => .error .OutOfFuel
  | fuel + 1, p, delimiter, terminator =>
    if tagMatches p.Token.Kind terminator then
      .ok ([], p)
    else
      match NodeExpectF branchF p with
      | .error e => .error e
      | .ok (x, p₁) =>
        if tagMatches p₁.Token.Kind delimiter then
          match p₁.Scan with
          | .error e => .error e
          | .ok (_, p₂) =>
            match nodeListLoop branchF fuel p₂ delimiter terminator with
            | .error e => .error e
            | .ok (xs, p₃) => .ok (x :: xs, p₃)
        else
          match p₁.Match terminator with
          | .error e => .error e
          | .ok _ => .ok ([x], p₁)

/-- `Pattern::Expect` (src/ast/parse.rs): Ident `=>` List of nodes with
delimiter `,` and terminator `;` (the `;` is left for the enclosing
Branch's list). -/
def PatternExpectF (branchF : Parser → Except ParserError (Branch × Parser))
    (fuel : Nat) (p : Parser) : Except ParserError (Pattern × Parser) :=
  let b := p.GetPos
  match IdentExpect p with
  | .error e => .error e
  | .ok (ahead, p₁) =>
    match p₁.MatchAndScan .ARROW with
    | .error e => .error e
    | .ok (_, p₂) =>
      let lb := p₂.GetPos
      match nodeListLoop branchF fuel p₂ .COMMA .SEMICOLON with
      | .error e => .error e
      | .ok (xs, p₃) =>
        .ok (.mk ⟨b, p₃.GetPos⟩ ahead ⟨⟨lb, p₃.GetPos⟩, xs, .COMMA, .SEMICOLON⟩, p₃)

/-- `List::Expect` monomorphised at `T = Pattern`, as used by
`Branch::Expect`. -/
def patternListLoop (branchF : Parser → Except ParserError (Branch × Parser)) :
    Nat → Parser → TokenKind → TokenKind → Except ParserError (List Pattern × Parser)
  | 0, _, _, _ => .error .OutOfFuel
  | fuel + 1, p, delimiter, terminator =>
    if tagMatches p.Token.Kind terminator then
      .ok ([], p)
    else
      match PatternExpectF branchF fuel p with
      | .error e => .error e
      | .ok (x, p₁) =>
        if tagMatches p₁.Token.Kind delimiter then
          match p₁.Scan with
          | .error e => .error e
          | .ok (_, p₂) =>
            match patternListLoop branchF fuel p₂ delimiter terminator with
            | .error e => .error e
            | .ok (xs, p₃) => .ok (x :: xs, p₃)
        else
          match p₁.Match terminator with
          | .error e => .error e
          | .ok _ => .ok ([x], p₁)

/-- `Branch::Expect` (src/ast/parse.rs): `{`, a `;`-delimited list of
patterns terminated by `}`, then one `Scan` consuming the `}`. -/
def BranchExpect : Nat → Parser → Except ParserError (Branch × Parser)
  | 0, _ => .error .OutOfFuel
  | fuel + 1, p =>
    let b := p.GetPos
    match p.MatchAndScan .LBRACE with
    | .error e => .error e
    | .ok (_, p₁) =>
      let lb := p₁.GetPos
      match patternListLoop (BranchExpect fuel) fuel p₁ .SEMICOLON .RBRACE with
      | .error e => .error e
      | .ok (xs, p₂) =>
        match p₂.Scan with
        | .error e => .error e
        | .ok (_, p₃) =>
          .ok (.mk ⟨b, p₃.GetPos⟩ ⟨⟨lb, p₂.GetPos⟩, xs, .SEMICOLON, .RBRACE⟩, p₃)

/-- `Node::Expect` with the fuel discipline of the other productions. -/
def NodeExpect : Nat → Parser → Except ParserError (Node × Parser)
  | 0, _ => .error .OutOfFuel
  | fuel + 1, p => NodeExpectF (BranchExpect fuel) p

/-- `Pattern::Expect` with the fuel discipline of the other
productions. -/
def PatternExpect : Nat → Parser → Except ParserError (Pattern × Parser)
  | 0, _ => .error .OutOfFuel
  | fuel + 1, p => PatternExpectF (BranchExpect fuel) fuel p

end AST

/-!
Auxiliary definitions used by the theorem statements below.
-/

/-- A raw scanner over a buffer, configured exactly as `Parser::new`
configures its scanner. -/
def scannerOf (buffer : List Char) : BasicScanner :=
  (Parser.new buffer).Scanner

/-- The stream of (kind, literal) pairs produced by repeated
`Parser::Scan` calls, stopping at the first error or after `n` tokens. -/
def tokenTrace : Nat → Parser → List (TokenKind × String)
  | 0, _ => []
  | n + 1, p =>
    match p.Scan with
    | .error _ => []
    | .ok (tok, p') => (tok.Kind, tok.Literal) :: tokenTrace n p'

/-- The token kinds after which a statement may end: the set the source's
flag-update match marks `CompleteSemicolon = true` for. -/
def endsStatement : TokenKind → Bool
  | .Ident => true
  | .Int _ => true
  | .RBRACE => true
  | .RPAREN => true
  | _ => false

/-- Literal of an identifier node inside the node union, for stating
parse results. -/
def nodeLit : AST.Node → String
  | .Ident i => i.Token.Literal
  | _ => ""

/-- Observable outcome of one escape decode: the decoded character and
number of characters consumed, or the failure class. -/
inductive EscOut where
  | ok (c : Char) (consumed : Nat)
  | eof
  | bad
deriving Repr, DecidableEq

/-- Project an escape-decode run that started at buffer offset `base` to
its outcome. -/
def escOutcome (base : Nat) (r : Except BasicScannerError (Char × BasicScanner)) : EscOut :=
  match r with
  | .ok (c, s') => .ok c (s'.GetPos.Offset - base)
  | .error (.EOF _) => .eof
  | .error (.BadFormat _) => .bad

/-- Reference decoder for a hex escape body of `n` digits, following the
amended claim's words: too few characters is `EndOfInput`; a digit
string rejected by `from_str_radix` base 16, or an invalid scalar value,
is `BadFormat`. -/
def escHex (n : Nat) (rest : List Char) : EscOut :=
  if rest.length < n then .eof
  else
    match u32FromStrRadix16 (rest.take n) with
    | none => .bad
    | some v =>
      match charFromU32 v with
      | none => .bad
      | some c => .ok c (1 + n)

/-- Reference escape decoder, following the amended claim's words: the
input is the buffer content after the backslash; the result is the
decoded character with the number of characters consumed. -/
def escDecode (quote : Char) : List Char → EscOut
  | [] => .eof
  | ch :: rest =>
    if ch = 'n' then .ok '\n' 1
    else if ch = 't' then .ok '\t' 1
    else if ch = 'r' then .ok '\r' 1
    else if ch = '\\' then .ok '\\' 1
    else if ch = 'x' then escHex 2 rest
    else if ch = 'u' then escHex 4 rest
    else if ch = 'U' then escHex 8 rest
    else if ch = quote then .ok quote 1 else .bad

/-- The branch-parse scenario of claim C7: prime the lookahead on the
whole input, then run `Branch::Expect`. -/
def c7buf : List Char :=
  ['\x7b', ' ', 'a', ' ', '=', '>', ' ', 'x', ',', ' ', 'y', ';', ' ',
   'b', ' ', '=', '>', ' ', 'z', ';', ' ', '\x7d']

def c7run : Except ParserError (AST.Branch × Parser) :=
  match (Parser.new c7buf).Scan with
  | .error e => .error e
  | .ok (_, p₁) => AST.BranchExpect 50 p₁

/-- The generic-list scenario of claim C2's example: identifiers
delimited by `;`, terminated by end of input. -/
def c2buf : List Char := ['a', ';', ' ', 'b', ';', ' ', 'c', ';']

def c2run : Except ParserError (List' AST.Ident × Parser) :=
  match (Parser.new c2buf).Scan with
  | .error e => .error e
  | .ok (_, p₁) => ListExpect AST.IdentExpect 20 p₁ .SEMICOLON .EOF

/-!
Theorems settling the claims.
-/

/-- Claim C1 (code bug): for an input beginning with a line or block
comment, the raw tokenizer never produces a Comment token. Because `/`
is itself in the configured delimiter set and the delimiter arm of
`Scan` precedes the `/` comment arm, the tokenizer returns a
single-character Delimiter token `/`, and the grammar layer then fails
on the keyword-table miss for `/` (the source panics via `.expect`,
modelled by `ConfigFault`) instead of discarding a comment and
recursing. -/
theorem c1_comment_tokens_never_produced :
    ((scannerOf ['/', '/', 'x', '\n']).Scan.map fun r => (r.1.Kind, r.1.Literal)) =
      .ok (.Delimiter, ['/'])
    ∧ ((scannerOf ['/', '*', 'x', '*', '/']).Scan.map fun r => (r.1.Kind, r.1.Literal)) =
      .ok (.Delimiter, ['/'])
    ∧ (Parser.new ['/', '/', 'x', '\n']).Scan = .error .ConfigFault
    ∧ (Parser.new ['/', '*', 'x', '*', '/']).Scan = .error .ConfigFault
    ∧ List.lookup "/" keywordTable = none :=
  ⟨rfl, rfl, rfl, rfl, rfl⟩

/-- Claim C5, counterexample: in the buffer `**/` the two-character
sequence `*/` occurs (at offset 1), yet block-comment scanning runs past
it and fails with `EndOfInput` instead of terminating there, because
after reading a `*` the following character is consumed unconditionally
and is not re-examined. -/
theorem c5_block_comment_overlap_counterexample :
    (scannerOf ['*', '*', '/']).ScanQuotedComment = .error (.EOF ⟨⟨3, 0, 3⟩⟩) := rfl

/-- Claim C5, amended: block-comment scanning consumes the character
after a `*` unconditionally, so an overlapping `*` is skipped rather
than re-examined: `**/` does not close the comment (it runs to
`EndOfInput`), while `***/` closes at its final `*/` (the loop's
stepping reaches that `*`), and `a*/` and `* */` close at their `*/`. -/
theorem c5_block_comment_two_char_stepping :
    ((scannerOf ['*', '*', '*', '/']).ScanQuotedComment.map fun r =>
      (r.1.Kind, r.1.Literal, r.2.GetPos.Offset)) = .ok (.Comment, ['*', '*', '*', '/'], 4)
    ∧ ((scannerOf ['a', '*', '/']).ScanQuotedComment.map fun r =>
      (r.1.Kind, r.1.Literal, r.2.GetPos.Offset)) = .ok (.Comment, ['a', '*', '/'], 3)
    ∧ ((scannerOf ['*', ' ', '*', '/']).ScanQuotedComment.map fun r =>
      (r.1.Kind, r.1.Literal, r.2.GetPos.Offset)) = .ok (.Comment, ['*', ' ', '*', '/'], 4)
    ∧ (scannerOf ['*', '*', '/']).ScanQuotedComment = .error (.EOF ⟨⟨3, 0, 3⟩⟩) :=
  ⟨rfl, rfl, rfl, rfl⟩

/-- Claim C7: on input `{ a => x, y; b => z; }` with the lookahead
primed on `{`, `Branch::Expect` succeeds with exactly two patterns —
lookahead `a` with body `[x, y]` and lookahead `b` with body `[z]` —
each inner body list recording terminator `;` (stopped there without
consuming it), the outer pattern list recording delimiter `;` and
terminator `}`, and the final `Scan` consuming `}` exactly once so the
parser ends on the `EOF` token. -/
theorem c7_branch_nested_sharing :
    (c7run.map fun r =>
      (r.1.Patterns.Elements.map fun pat =>
        (pat.Ahead.Token.Literal, pat.Rule.Elements.map nodeLit, pat.Rule.Term),
       r.1.Patterns.Delimiter, r.1.Patterns.Term, r.2.Token.Kind)) =
    .ok ([("a", ["x", "y"], .SEMICOLON), ("b", ["z"], .SEMICOLON)], .SEMICOLON, .RBRACE, .EOF) := rfl

/-- Claim C4, counterexample: scanning `0x1f;` consumes offsets 0
through 4, but the returned Integer token's literal is `1f` — the
consumed base prefix `0x` is excluded from the literal (and from the
token's recorded range, which begins at offset 2), contradicting the
claim that the literal equals the full consumed slice including the
prefix. -/
theorem c4_integer_literal_slice_counterexample :
    ((scannerOf ['0', 'x', '1', 'f', ';']).Scan.map fun r =>
      (r.1.Kind, r.1.Literal, r.1.Pos.Begin.Offset, r.1.Pos.End.Offset, r.2.GetPos.Offset)) =
    .ok (.Int .HEX, ['1', 'f'], 2, 4, 4) ∧ ['1', 'f'] ≠ ['0', 'x', '1', 'f'] :=
  ⟨rfl, by decide⟩

/-- Claim C6, counterexample: the escape `\x+1` contains the invalid hex
digit `+`, yet decoding succeeds with code point 1 after consuming three
characters, because Rust's `u32::from_str_radix` accepts an optional
leading `+`; this contradicts the claimed equivalence of failure with
the presence of an invalid hex digit. -/
theorem c6_escape_plus_sign_counterexample :
    (((scannerOf ['x', '+', '1']).ScanEscapeChar '"').map fun r =>
      (r.1.toNat, r.2.GetPos.Offset)) = .ok (1, 3)
    ∧ hexDigitVal '+' = none :=
  ⟨rfl, rfl⟩

/-- Claim C9, counterexample: the single-quoted character literal `'a'`
is tokenized with kind `String`, not `Char` — `ScanString` tags every
quoted literal `String` regardless of the quote character. -/
theorem c9_single_quote_kind_counterexample :
    ((scannerOf ['\'', 'a', '\'']).Scan.map fun r => (r.1.Kind, r.1.Literal)) =
      .ok (.String, ['a'])
    ∧ BasicTokenKind.String ≠ BasicTokenKind.Char :=
  ⟨rfl, by decide⟩

/-- Helper: when the raw scanner reports `EndOfInput` and the current
token is not yet `EOF`, `Parser::Scan` masks the failure and returns the
current token with its kind set to `EOF`. -/
theorem parserScan_eof_mask (p : Parser) (e : EOFError)
    (hoff : p.Scanner.BS.Pos.Offset ≤ p.Scanner.BS.Buffer.length)
    (hscan : p.Scanner.Scan = .error (.EOF e))
    (htok : p.Token.Kind ≠ .EOF) :
    Parser.Scan p =
      .ok ({ p.Token with Kind := .EOF }, { p with Token := { p.Token with Kind := .EOF } }) := by
  have hfuel : p.Scanner.fuel =
      (p.Scanner.BS.Buffer.length - p.Scanner.BS.Pos.Offset) + 1 := by
    unfold BasicScanner.fuel BufferScanner.fuel
    omega
  unfold Parser.Scan
  rw [hfuel]
  simp only [Parser.scanLoop, hscan]

/-- Helper: when the raw scanner reports `EndOfInput` and the current
token is already `EOF`, `Parser::Scan` fails with the scanner error. -/
theorem parserScan_after_eof (p : Parser) (e : EOFError)
    (hoff : p.Scanner.BS.Pos.Offset ≤ p.Scanner.BS.Buffer.length)
    (hscan : p.Scanner.Scan = .error (.EOF e))
    (htok : p.Token.Kind = .EOF) :
    Parser.Scan p = .error (.ScannerError (.EOF e)) := by
  have hfuel : p.Scanner.fuel =
      (p.Scanner.BS.Buffer.length - p.Scanner.BS.Pos.Offset) + 1 := by
    unfold BasicScanner.fuel BufferScanner.fuel
    omega
  unfold Parser.Scan
  rw [hfuel]
  simp only [Parser.scanLoop, hscan, htok]

/-- Claim C8: on a raw-tokenizer `EndOfInput`, if the current token is
already `EOF` the call fails with the scanner error; otherwise the
current token's kind is set to `EOF` and that token is returned, and the
very next `Scan` — the parser now holding an `EOF` token over the same
scanner state — fails. Concretely, on empty input exactly one `EOF`
token is produced before the failure. (The offset-in-range hypothesis
is the cursor invariant of every reachable state.) -/
theorem c8_double_eof_signal :
    (∀ p : Parser, ∀ e : EOFError,
      p.Scanner.BS.Pos.Offset ≤ p.Scanner.BS.Buffer.length →
      p.Scanner.Scan = .error (.EOF e) →
      p.Token.Kind = .EOF →
      Parser.Scan p = .error (.ScannerError (.EOF e)))
    ∧ (∀ p : Parser, ∀ e : EOFError,
      p.Scanner.BS.Pos.Offset ≤ p.Scanner.BS.Buffer.length →
      p.Scanner.Scan = .error (.EOF e) →
      p.Token.Kind ≠ .EOF →
      Parser.Scan p =
        .ok ({ p.Token with Kind := .EOF }, { p with Token := { p.Token with Kind := .EOF } })
      ∧ Parser.Scan { p with Token := { p.Token with Kind := .EOF } } =
        .error (.ScannerError (.EOF e)))
    ∧ tokenTrace 3 (Parser.new []) = [(.EOF, "")] := by
  refine ⟨fun p e hoff hscan htok => parserScan_after_eof p e hoff hscan htok,
          fun p e hoff hscan htok =>
            ⟨parserScan_eof_mask p e hoff hscan htok,
             parserScan_after_eof _ e hoff hscan rfl⟩,
          rfl⟩

/-- Witness for C8 at empty input: the first `Scan` returns the default
token with kind set to `EOF`, the second fails. -/
theorem c8_double_eof_signal_witness :
    Parser.Scan (Parser.new []) =
      .ok ({ (Parser.new []).Token with Kind := .EOF },
           { Parser.new [] with Token := { (Parser.new []).Token with Kind := .EOF } })
    ∧ Parser.Scan { Parser.new [] with Token := { (Parser.new []).Token with Kind := .EOF } } =
      .error (.ScannerError (.EOF ⟨⟨0, 0, 0⟩⟩)) :=
  c8_double_eof_signal.2.1 (Parser.new []) ⟨⟨0, 0, 0⟩⟩ (by decide) rfl (by decide)

/-- Claim C10: the raw tokenizer fails with `EndOfInput` in the middle
of the unterminated string `"abc`; a grammar-layer `Scan` whose current
token is not yet `EOF` does not propagate this: it returns a normal
`EOF` token, indistinguishable from a clean end of input, and the error
surfaces only on the following `Scan`. Concretely, the whole pipeline on
`"abc` produces exactly the one `EOF` token a clean empty input
produces. -/
theorem c10_mid_token_truncation_mask :
    (scannerOf ['"', 'a', 'b', 'c']).Scan = .error (.EOF ⟨⟨4, 0, 4⟩⟩)
    ∧ (∀ p : Parser, ∀ e : EOFError,
      p.Scanner.BS.Pos.Offset ≤ p.Scanner.BS.Buffer.length →
      p.Scanner.Scan = .error (.EOF e) →
      p.Token.Kind ≠ .EOF →
      ((Parser.Scan p).map fun r => (r.1.Kind, r.2.Token.Kind)) = .ok (.EOF, .EOF)
      ∧ Parser.Scan { p with Token := { p.Token with Kind := .EOF } } =
        .error (.ScannerError (.EOF e)))
    ∧ tokenTrace 3 (Parser.new ['"', 'a', 'b', 'c']) = [(.EOF, "")] := by
  refine ⟨rfl,
          fun p e hoff hscan htok =>
            ⟨by rw [parserScan_eof_mask p e hoff hscan htok]; rfl,
             parserScan_after_eof _ e hoff hscan rfl⟩,
          rfl⟩

/-- Witness for C10 on the unterminated string `"abc`: the masked `EOF`
token appears, then the next `Scan` fails. -/
theorem c10_mid_token_truncation_mask_witness :
    ((Parser.Scan (Parser.new ['"', 'a', 'b', 'c'])).map fun r => (r.1.Kind, r.2.Token.Kind)) =
      .ok (.EOF, .EOF)
    ∧ Parser.Scan { Parser.new ['"', 'a', 'b', 'c'] with
        Token := { (Parser.new ['"', 'a', 'b', 'c']).Token with Kind := .EOF } } =
      .error (.ScannerError (.EOF ⟨⟨4, 0, 4⟩⟩)) :=
  c10_mid_token_truncation_mask.2.1 (Parser.new ['"', 'a', 'b', 'c']) ⟨⟨4, 0, 4⟩⟩
    (by decide) rfl (by decide)

/-- Helper for C2: whenever the `List::Expect` loop returns
successfully, the parser's current token tag-matches the terminator. -/
theorem listLoop_terminator {α : Type} (elem : Parser → Except ParserError (α × Parser))
    (d t : TokenKind) :
    ∀ (fuel : Nat) (p : Parser) (xs : List α) (p' : Parser),
      listLoop elem fuel p d t = .ok (xs, p') → tagMatches p'.Token.Kind t = true := by
  intro fuel
  induction fuel with
  | zero => intro p xs p' h; simp [listLoop] at h
  | succ f ih =>
    intro p xs p' h
    unfold listLoop at h
    split at h
    · rename_i hterm
      cases h
      exact hterm
    · rename_i hterm
      cases helem : elem p with
      | error e => rw [helem] at h; cases h
      | ok v =>
        rw [helem] at h
        obtain ⟨x, p₁⟩ := v
        dsimp at h
        split at h
        · rename_i hdelim
          cases hscan : p₁.Scan with
          | error e => rw [hscan] at h; cases h
          | ok w =>
            rw [hscan] at h
            obtain ⟨_, p₂⟩ := w
            dsimp at h
            cases hrec : listLoop elem f p₂ d t with
            | error e => rw [hrec] at h; cases h
            | ok u =>
              rw [hrec] at h
              obtain ⟨ys, p₃⟩ := u
              dsimp at h
              cases h
              exact ih p₂ ys p' hrec
        · rename_i hdelim
          cases hmatch : p₁.Match t with
          | error e => rw [hmatch] at h; cases h
          | ok u =>
            rw [hmatch] at h
            dsimp at h
            cases h
            unfold Parser.Match at hmatch
            split at hmatch
            · assumption
            · cases hmatch

/-- Claim C2: a successful `List::Expect` always leaves the parser's
current token tag-matching the terminator (so the terminator is never
consumed — covering the immediate-terminator, trailing-delimiter and
after-element cases uniformly); after an element, a token matching
neither delimiter nor terminator fails `UnexpectedToken{want :=
terminator, have := that token}`; and on `a; b; c;` with delimiter `;`
and terminator end-of-input, three elements are parsed, the trailing `;`
is consumed by the delimiter branch, and the still-unconsumed terminator
`EOF` is the current token. -/
theorem c2_list_terminator_contract :
    (∀ {α : Type} (elem : Parser → Except ParserError (α × Parser)) (fuel : Nat)
      (p : Parser) (d t : TokenKind) (r : List' α × Parser),
      ListExpect elem fuel p d t = .ok r → tagMatches r.2.Token.Kind t = true)
    ∧ (∀ {α : Type} (elem : Parser → Except ParserError (α × Parser)) (fuel : Nat)
      (p : Parser) (d t : TokenKind) (x : α) (p₁ : Parser),
      tagMatches p.Token.Kind t = false →
      elem p = .ok (x, p₁) →
      tagMatches p₁.Token.Kind d = false →
      tagMatches p₁.Token.Kind t = false →
      ListExpect elem (fuel + 1) p d t = .error (.UnexpectedToken ⟨t, p₁.Token⟩))
    ∧ (c2run.map fun r =>
        ((r.1.Elements.map fun i => i.Token.Literal), r.2.Token.Kind, r.1.Delimiter, r.1.Term)) =
      .ok (["a", "b", "c"], .EOF, .SEMICOLON, .EOF) := by
  refine ⟨?_, ?_, rfl⟩
  · intro α elem fuel p d t r h
    unfold ListExpect at h
    cases hloop : listLoop elem fuel p d t with
    | error e => rw [hloop] at h; cases h
    | ok u =>
      rw [hloop] at h
      obtain ⟨xs, p'⟩ := u
      dsimp at h
      cases h
      exact listLoop_terminator elem d t fuel p xs p' hloop
  · intro α elem fuel p d t x p₁ hterm helem hdelim hterm₁
    unfold ListExpect listLoop
    rw [hterm, helem]
    dsimp
    rw [hdelim]
    unfold Parser.Match
    rw [hterm₁]
    rfl

/-- Witness for C2: at an empty parser whose current token kind is
`None`, a list with terminator kind `None` returns at once with the
terminator unconsumed, and with terminator `EOF` an element followed by
a token matching neither `,` nor `EOF` fails `UnexpectedToken`. -/
theorem c2_list_terminator_contract_witness :
    tagMatches (Parser.new []).Token.Kind .None = true
    ∧ ListExpect (fun p => .ok ((), p)) 1 (Parser.new []) .COMMA .EOF =
      .error (.UnexpectedToken ⟨.EOF, (Parser.new []).Token⟩) :=
  ⟨c2_list_terminator_contract.1 (fun p => .ok ((), p)) 1 (Parser.new []) .COMMA .None
      (⟨⟨⟨0, 0, 0⟩, ⟨0, 0, 0⟩⟩, [], .COMMA, .None⟩, Parser.new []) rfl,
   c2_list_terminator_contract.2.1 (fun p => .ok ((), p)) 0 (Parser.new []) .COMMA .EOF
      () (Parser.new []) (by decide) rfl (by decide) (by decide)⟩

/-- Helper for C3: any non-`EOF` token returned by the grammar scanner
leaves `CompleteSemicolon` equal to `endsStatement` of its kind. -/
theorem scanLoop_flag :
    ∀ (fuel : Nat) (p : Parser) (tok : Token) (p' : Parser),
      Parser.scanLoop fuel p = .ok (tok, p') → tok.Kind ≠ .EOF →
      p'.CompleteSemicolon = endsStatement tok.Kind := by
  intro fuel
  induction fuel with
  | zero => intro p tok p' h htok; simp [Parser.scanLoop] at h
  | succ f ih =>
    intro p tok p' h htok
    unfold Parser.scanLoop at h
    cases hscan : p.Scanner.Scan with
    | error e =>
      rw [hscan] at h
      cases e with
      | EOF e' =>
        dsimp at h
        split at h
        · cases h
        · cases h
          exact absurd rfl htok
      | BadFormat e' => dsimp at h; cases h
    | ok v =>
      rw [hscan] at h
      obtain ⟨bt, s'⟩ := v
      dsimp at h
      split at h
      · exact ih _ tok p' h htok
      · rename_i bk hbk
        split at h
        · cases h
        · rename_i kind hkind
          split at h
          · split at h
            · cases h
              rfl
            · exact ih _ tok p' h htok
          · rename_i hknl
            cases h
            cases kind <;> simp_all [endsStatement]

/-- Helper for C3: a raw scan that succeeds has positive wrapper fuel
(the whitespace loop fails immediately on zero fuel). -/
theorem scanOk_fuel_pos (s : BasicScanner) (r : BasicToken × BasicScanner)
    (h : s.Scan = .ok r) : 0 < s.fuel := by
  rcases Nat.eq_zero_or_pos s.fuel with h0 | h1
  · exfalso
    unfold BasicScanner.Scan BasicScanner.SkipWhitespaces at h
    rw [h0] at h
    simp [runLoop] at h
  · exact h1

/-- Claim C3: (1) every non-`EOF` token produced by `Parser::Scan`
leaves `CompleteSemicolon` true exactly for kinds Identifier, Integer
(any base), `}` and `)` and false for every other kind (including the
synthesized `;`); (2) a raw newline token met with the flag set
synthesizes a `;` token at the newline's recorded position and clears
the flag; (3) a raw newline token met with the flag clear is discarded
and scanning recurses; (4) concretely, `a\nb` produces `a`, then a
synthesized `;`, then `EOF` (no `b`: its trailing run hits end of input,
which the parser masks as `EOF`), and `a + \n b` produces `a`, `+`, then
`EOF` with no synthesized `;` after `+`. -/
theorem c3_pending_terminator_protocol :
    (∀ (p : Parser) (tok : Token) (p' : Parser),
      Parser.Scan p = .ok (tok, p') → tok.Kind ≠ .EOF →
      p'.CompleteSemicolon = endsStatement tok.Kind)
    ∧ (∀ (p : Parser) (bt : BasicToken) (s' : BasicScanner),
      p.KeywordLookup = keywordTable →
      p.Scanner.Scan = .ok (bt, s') →
      bt.Kind = .Delimiter → bt.Literal = ['\n'] →
      p.CompleteSemicolon = true →
      Parser.Scan p = .ok (⟨bt.Pos, .SEMICOLON, ";"⟩,
        ⟨s', p.KeywordLookup, ⟨bt.Pos, .SEMICOLON, ";"⟩, false⟩))
    ∧ (∀ (p : Parser) (bt : BasicToken) (s' : BasicScanner) (k : Nat),
      p.KeywordLookup = keywordTable →
      p.Scanner.Scan = .ok (bt, s') →
      bt.Kind = .Delimiter → bt.Literal = ['\n'] →
      p.CompleteSemicolon = false →
      p.Scanner.fuel = k + 1 →
      Parser.Scan p = Parser.scanLoop k { p with Scanner := s' })
    ∧ tokenTrace 4 (Parser.new ['a', '\n', 'b']) =
      [(.Ident, "a"), (.SEMICOLON, ";"), (.EOF, ";")]
    ∧ tokenTrace 5 (Parser.new ['a', ' ', '+', ' ', '\n', ' ', 'b']) =
      [(.Ident, "a"), (.Operator, "+"), (.EOF, "+")] := by
  refine ⟨?_, ?_, ?_, rfl, rfl⟩
  · intro p tok p' h htok
    exact scanLoop_flag p.Scanner.fuel p tok p' h htok
  · intro p bt s' hlk hscan hbk hlit hflag
    obtain ⟨k, hk⟩ : ∃ k, p.Scanner.fuel = k + 1 :=
      ⟨p.Scanner.fuel - 1, by have := scanOk_fuel_pos _ _ hscan; omega⟩
    unfold Parser.Scan
    rw [hk]
    simp only [Parser.scanLoop, hscan]
    rw [hbk, hlit, hlk]
    simp only [hflag]
    rw [show List.lookup (['\n'].asString) keywordTable = some TokenKind.NEWLINE from rfl]
    simp
  · intro p bt s' k hlk hscan hbk hlit hflag hk
    unfold Parser.Scan
    rw [hk]
    simp only [Parser.scanLoop, hscan]
    rw [hbk, hlit, hlk]
    simp only [hflag]
    rw [show List.lookup (['\n'].asString) keywordTable = some TokenKind.NEWLINE from rfl]
    simp

/-- Witness for C3 at input `a;`: scanning `a` yields an `Ident` token
and the flag equals `endsStatement Ident` (true). -/
theorem c3_pending_terminator_protocol_witness :
    (⟨⟨⟨⟨1, 0, 1⟩, ['a', ';']⟩,
       ['(', ')', '[', ']', '\x7b', '\x7d', ',', ';', '/', '\n'],
       [' ', '\t', '\r']⟩,
      keywordTable, ⟨⟨⟨0, 0, 0⟩, ⟨1, 0, 1⟩⟩, .Ident, "a"⟩, true⟩ : Parser).CompleteSemicolon
      = endsStatement TokenKind.Ident :=
  c3_pending_terminator_protocol.1 (Parser.new ['a', ';'])
    ⟨⟨⟨0, 0, 0⟩, ⟨1, 0, 1⟩⟩, .Ident, "a"⟩
    ⟨⟨⟨⟨1, 0, 1⟩, ['a', ';']⟩,
       ['(', ')', '[', ']', '\x7b', '\x7d', ',', ';', '/', '\n'],
       [' ', '\t', '\r']⟩,
      keywordTable, ⟨⟨⟨0, 0, 0⟩, ⟨1, 0, 1⟩⟩, .Ident, "a"⟩, true⟩
    rfl (by decide)

theorem getCharAt (bs : BufferScanner) (pre rest : List Char) (c : Char)
    (hbuf : bs.Buffer = pre ++ c :: rest) (hoff : bs.Pos.Offset = pre.length) :
    bs.GetChar = .ok c := by
  unfold BufferScanner.GetChar
  rw [hbuf, hoff]
  rw [if_neg (by simp)]
  rw [List.getD_append_right _ _ _ _ (Nat.le_refl _)]
  simp

theorem moveAt (bs : BufferScanner) (pre rest : List Char) (c : Char)
    (hbuf : bs.Buffer = pre ++ c :: rest) (hoff : bs.Pos.Offset = pre.length) :
    bs.Move = .ok (c, { bs with Pos :=
      if c = '\n' then ⟨bs.Pos.Offset + 1, bs.Pos.Line + 1, 0⟩
      else ⟨bs.Pos.Offset + 1, bs.Pos.Line, bs.Pos.Column + 1⟩ }) := by
  unfold BufferScanner.Move
  rw [getCharAt bs pre rest c hbuf hoff]

theorem sMoveAt (s : BasicScanner) (pre rest : List Char) (c : Char)
    (hbuf : s.BS.Buffer = pre ++ c :: rest) (hoff : s.BS.Pos.Offset = pre.length) :
    s.Move = .ok (c, { s with BS := { s.BS with Pos :=
      if c = '\n' then ⟨s.BS.Pos.Offset + 1, s.BS.Pos.Line + 1, 0⟩
      else ⟨s.BS.Pos.Offset + 1, s.BS.Pos.Line, s.BS.Pos.Column + 1⟩ } }) := by
  unfold BasicScanner.Move
  rw [moveAt s.BS pre rest c hbuf hoff]

theorem sGetCharAt (s : BasicScanner) (pre rest : List Char) (c : Char)
    (hbuf : s.BS.Buffer = pre ++ c :: rest) (hoff : s.BS.Pos.Offset = pre.length) :
    s.GetChar = .ok c := by
  unfold BasicScanner.GetChar
  rw [getCharAt s.BS pre rest c hbuf hoff]

theorem runLoop_run (cond : Char → Bool) :
    ∀ (ds : List Char) (fuel : Nat) (s : BasicScanner) (pre : List Char) (c : Char)
      (rest : List Char),
      s.BS.Buffer = pre ++ ds ++ c :: rest →
      s.BS.Pos.Offset = pre.length →
      (∀ d ∈ ds, cond d = true) →
      (∀ d ∈ ds, d ≠ '\n') →
      cond c = false →
      ds.length < fuel →
      runLoop cond fuel s =
        .ok ⟨⟨⟨pre.length + ds.length, s.BS.Pos.Line, s.BS.Pos.Column + ds.length⟩,
              s.BS.Buffer⟩, s.Delimiters, s.Whitespaces⟩ := by
  intro ds
  induction ds with
  | nil =>
    intro fuel s pre c rest hbuf hoff hds hnl hc hfuel
    obtain ⟨f, rfl⟩ : ∃ f, fuel = f + 1 := ⟨fuel - 1, by omega⟩
    unfold runLoop
    rw [sGetCharAt s pre rest c (by simpa using hbuf) hoff]
    dsimp only
    rw [hc]
    simp only [List.length_nil, Nat.add_zero, Bool.false_eq_true, if_false]
    rw [← hoff]
  | cons d ds ih =>
    intro fuel s pre c rest hbuf hoff hds hnl hc hfuel
    have hpos : 0 < fuel := Nat.lt_of_le_of_lt (Nat.zero_le _) hfuel
    obtain ⟨f, rfl⟩ : ∃ f, fuel = f + 1 := ⟨fuel - 1, by omega⟩
    have hlen : ds.length < f := by
      simp only [List.length_cons] at hfuel
      omega
    have hbuf' : s.BS.Buffer = pre ++ d :: (ds ++ c :: rest) := by simpa using hbuf
    unfold runLoop
    rw [sGetCharAt s pre (ds ++ c :: rest) d hbuf' hoff]
    dsimp only
    rw [hds d (List.mem_cons_self d ds)]
    simp only [if_true]
    rw [sMoveAt s pre (ds ++ c :: rest) d hbuf' hoff]
    dsimp only
    rw [if_neg (hnl d (List.mem_cons_self d ds))]
    rw [ih f _ (pre ++ [d]) c rest (by simp [hbuf]) (by simp [hoff])
        (fun x hx => hds x (List.mem_cons_of_mem d hx))
        (fun x hx => hnl x (List.mem_cons_of_mem d hx)) hc hlen]
    simp only [List.length_nil, List.length_cons, List.length_append, List.length_singleton,
      Except.ok.injEq, BasicScanner.mk.injEq, BufferScanner.mk.injEq, Position.mk.injEq,
      and_true, true_and]
    omega

theorem runLoop_stop (cond : Char → Bool) (fuel : Nat) (s : BasicScanner) (c : Char)
    (hget : s.GetChar = .ok c) (hc : cond c = false) :
    runLoop cond (fuel + 1) s = .ok s := by
  unfold runLoop
  rw [hget]
  dsimp only
  rw [hc]
  simp

theorem collect_run (pre ds tail' : List Char) :
    collectFromTo (pre ++ ds ++ tail') pre.length (pre.length + ds.length) = ds := by
  unfold collectFromTo
  rw [List.append_assoc, List.drop_left, Nat.add_sub_cancel_left, List.take_left]

theorem hexCond_ne_nl {d : Char} (h : hexCond d = true) : d ≠ '\n' := by
  intro he; subst he; exact absurd h (by decide)

theorem sMoveAtN (s : BasicScanner) (pre rest : List Char) (c : Char)
    (hbuf : s.BS.Buffer = pre ++ c :: rest) (hoff : s.BS.Pos.Offset = pre.length)
    (hnl : c ≠ '\n') :
    s.Move = .ok (c, ⟨⟨⟨s.BS.Pos.Offset + 1, s.BS.Pos.Line, s.BS.Pos.Column + 1⟩,
      s.BS.Buffer⟩, s.Delimiters, s.Whitespaces⟩) := by
  rw [sMoveAt s pre rest c hbuf hoff, if_neg hnl]

theorem scanHexFull (ds rest : List Char) (c : Char)
    (hds : ∀ d ∈ ds, hexCond d = true) (hc : hexCond c = false) :
    (scannerOf ('0' :: 'x' :: ds ++ c :: rest)).Scan =
      .ok (⟨⟨⟨2, 0, 2⟩, ⟨2 + ds.length, 0, 2 + ds.length⟩⟩, .Int .HEX, ds⟩,
           ⟨⟨⟨2 + ds.length, 0, 2 + ds.length⟩, '0' :: 'x' :: ds ++ c :: rest⟩,
            ['(', ')', '[', ']', '\x7b', '\x7d', ',', ';', '/', '\n'],
            [' ', '\t', '\r']⟩) := by
  have hskip : (scannerOf ('0' :: 'x' :: ds ++ c :: rest)).SkipWhitespaces =
      .ok (scannerOf ('0' :: 'x' :: ds ++ c :: rest)) := by
    unfold BasicScanner.SkipWhitespaces BasicScanner.fuel BufferScanner.fuel
    exact runLoop_stop _ _ _ '0'
      (sGetCharAt _ [] ('x' :: ds ++ c :: rest) '0' rfl rfl) rfl
  unfold BasicScanner.Scan
  rw [hskip]
  dsimp only
  rw [show scannerOf ('0' :: 'x' :: ds ++ c :: rest) =
    (⟨⟨⟨0, 0, 0⟩, '0' :: 'x' :: ds ++ c :: rest⟩,
      ['(', ')', '[', ']', '\x7b', '\x7d', ',', ';', '/', '\n'],
      [' ', '\t', '\r']⟩ : BasicScanner) from rfl]
  rw [sGetCharAt _ [] ('x' :: ds ++ c :: rest) '0' rfl rfl]
  dsimp only
  rw [show isAlphabeticM '0' = false from rfl, show isNumericM '0' = true from rfl]
  simp only [Bool.false_eq_true, if_false, if_true]
  unfold BasicScanner.ScanDigit
  rw [sMoveAtN _ [] ('x' :: ds ++ c :: rest) '0' rfl rfl (by decide)]
  dsimp only
  rw [sMoveAtN _ ['0'] (ds ++ c :: rest) 'x' rfl rfl (by decide)]
  dsimp only
  simp only [Nat.zero_add, Nat.reduceAdd]
  unfold BasicScanner.ScanHex
  rw [runLoop_run hexCond ds _ _ ['0', 'x'] c rest (by simp) rfl hds
      (fun d hd => hexCond_ne_nl (hds d hd)) hc
      (by unfold BasicScanner.fuel BufferScanner.fuel; simp; omega)]
  dsimp only [BasicScanner.GetPos]
  simp only [List.length_cons, List.length_nil, Nat.reduceAdd]
  rw [show collectFromTo ('0' :: 'x' :: ds ++ c :: rest) 2 (2 + ds.length) = ds from by
    have h := collect_run ['0', 'x'] ds (c :: rest)
    simpa using h]

theorem octCond_ne_nl {d : Char} (h : octCond d = true) : d ≠ '\n' := by
  intro he; subst he; exact absurd h (by decide)

theorem binCond_ne_nl {d : Char} (h : binCond d = true) : d ≠ '\n' := by
  intro he; subst he; exact absurd h (by decide)

theorem decCond_ne_nl {d : Char} (h : decCond d = true) : d ≠ '\n' := by
  intro he; subst he; exact absurd h (by decide)

theorem decCond_isNumeric {d : Char} (h : decCond d = true) : isNumericM d = true := by
  unfold decCond at h
  unfold isNumericM
  simp [Char.isDigit]
  simpa using h

theorem decCond_not_alpha {d : Char} (h : decCond d = true) : isAlphabeticM d = false := by
  unfold decCond at h
  simp [Char.le_def, UInt32.le_def, BitVec.le_def] at h
  simp [isAlphabeticM, Char.isAlpha, Char.isUpper, Char.isLower, Char.le_def, UInt32.le_def,
    BitVec.le_def]
  omega

theorem decCond_not_ws {d : Char} (h : decCond d = true) :
    ([' ', '\t', '\r'].contains d) = false := by
  unfold decCond at h
  have h1 : d ≠ ' ' := by intro he; subst he; exact absurd h (by decide)
  have h2 : d ≠ '\t' := by intro he; subst he; exact absurd h (by decide)
  have h3 : d ≠ '\r' := by intro he; subst he; exact absurd h (by decide)
  simp [List.contains, List.elem, beq_eq_false_iff_ne.mpr h1, beq_eq_false_iff_ne.mpr h2,
    beq_eq_false_iff_ne.mpr h3]

theorem scanOctFull (ds rest : List Char) (c : Char)
    (hds : ∀ d ∈ ds, octCond d = true) (hc : octCond c = false) :
    (scannerOf ('0' :: 'o' :: ds ++ c :: rest)).Scan =
      .ok (⟨⟨⟨2, 0, 2⟩, ⟨2 + ds.length, 0, 2 + ds.length⟩⟩, .Int .OCT, ds⟩,
           ⟨⟨⟨2 + ds.length, 0, 2 + ds.length⟩, '0' :: 'o' :: ds ++ c :: rest⟩,
            ['(', ')', '[', ']', '\x7b', '\x7d', ',', ';', '/', '\n'],
            [' ', '\t', '\r']⟩) := by
  have hskip : (scannerOf ('0' :: 'o' :: ds ++ c :: rest)).SkipWhitespaces =
      .ok (scannerOf ('0' :: 'o' :: ds ++ c :: rest)) := by
    unfold BasicScanner.SkipWhitespaces BasicScanner.fuel BufferScanner.fuel
    exact runLoop_stop _ _ _ '0'
      (sGetCharAt _ [] ('o' :: ds ++ c :: rest) '0' rfl rfl) rfl
  unfold BasicScanner.Scan
  rw [hskip]
  dsimp only
  rw [show scannerOf ('0' :: 'o' :: ds ++ c :: rest) =
    (⟨⟨⟨0, 0, 0⟩, '0' :: 'o' :: ds ++ c :: rest⟩,
      ['(', ')', '[', ']', '\x7b', '\x7d', ',', ';', '/', '\n'],
      [' ', '\t', '\r']⟩ : BasicScanner) from rfl]
  rw [sGetCharAt _ [] ('o' :: ds ++ c :: rest) '0' rfl rfl]
  dsimp only
  rw [show isAlphabeticM '0' = false from rfl, show isNumericM '0' = true from rfl]
  simp only [Bool.false_eq_true, if_false, if_true]
  unfold BasicScanner.ScanDigit
  rw [sMoveAtN _ [] ('o' :: ds ++ c :: rest) '0' rfl rfl (by decide)]
  dsimp only
  rw [sMoveAtN _ ['0'] (ds ++ c :: rest) 'o' rfl rfl (by decide)]
  dsimp only
  simp only [Nat.zero_add, Nat.reduceAdd]
  unfold BasicScanner.ScanOct
  rw [runLoop_run octCond ds _ _ ['0', 'o'] c rest (by simp) rfl hds
      (fun d hd => octCond_ne_nl (hds d hd)) hc
      (by unfold BasicScanner.fuel BufferScanner.fuel; simp; omega)]
  dsimp only [BasicScanner.GetPos]
  simp only [List.length_cons, List.length_nil, Nat.reduceAdd]
  rw [show collectFromTo ('0' :: 'o' :: ds ++ c :: rest) 2 (2 + ds.length) = ds from by
    have h := collect_run ['0', 'o'] ds (c :: rest)
    simpa using h]

theorem scanBinFull (ds rest : List Char) (c : Char)
    (hds : ∀ d ∈ ds, binCond d = true) (hc : binCond c = false) :
    (scannerOf ('0' :: 'b' :: ds ++ c :: rest)).Scan =
      .ok (⟨⟨⟨2, 0, 2⟩, ⟨2 + ds.length, 0, 2 + ds.length⟩⟩, .Int .BIN, ds⟩,
           ⟨⟨⟨2 + ds.length, 0, 2 + ds.length⟩, '0' :: 'b' :: ds ++ c :: rest⟩,
            ['(', ')', '[', ']', '\x7b', '\x7d', ',', ';', '/', '\n'],
            [' ', '\t', '\r']⟩) := by
  have hskip : (scannerOf ('0' :: 'b' :: ds ++ c :: rest)).SkipWhitespaces =
      .ok (scannerOf ('0' :: 'b' :: ds ++ c :: rest)) := by
    unfold BasicScanner.SkipWhitespaces BasicScanner.fuel BufferScanner.fuel
    exact runLoop_stop _ _ _ '0'
      (sGetCharAt _ [] ('b' :: ds ++ c :: rest) '0' rfl rfl) rfl
  unfold BasicScanner.Scan
  rw [hskip]
  dsimp only
  rw [show scannerOf ('0' :: 'b' :: ds ++ c :: rest) =
    (⟨⟨⟨0, 0, 0⟩, '0' :: 'b' :: ds ++ c :: rest⟩,
      ['(', ')', '[', ']', '\x7b', '\x7d', ',', ';', '/', '\n'],
      [' ', '\t', '\r']⟩ : BasicScanner) from rfl]
  rw [sGetCharAt _ [] ('b' :: ds ++ c :: rest) '0' rfl rfl]
  dsimp only
  rw [show isAlphabeticM '0' = false from rfl, show isNumericM '0' = true from rfl]
  simp only [Bool.false_eq_true, if_false, if_true]
  unfold BasicScanner.ScanDigit
  rw [sMoveAtN _ [] ('b' :: ds ++ c :: rest) '0' rfl rfl (by decide)]
  dsimp only
  rw [sMoveAtN _ ['0'] (ds ++ c :: rest) 'b' rfl rfl (by decide)]
  dsimp only
  simp only [Nat.zero_add, Nat.reduceAdd]
  unfold BasicScanner.ScanBin
  rw [runLoop_run binCond ds _ _ ['0', 'b'] c rest (by simp) rfl hds
      (fun d hd => binCond_ne_nl (hds d hd)) hc
      (by unfold BasicScanner.fuel BufferScanner.fuel; simp; omega)]
  dsimp only [BasicScanner.GetPos]
  simp only [List.length_cons, List.length_nil, Nat.reduceAdd]
  rw [show collectFromTo ('0' :: 'b' :: ds ++ c :: rest) 2 (2 + ds.length) = ds from by
    have h := collect_run ['0', 'b'] ds (c :: rest)
    simpa using h]

theorem scanDecFull (d₀ : Char) (ds rest : List Char) (c : Char)
    (h0 : decCond d₀ = true) (hne : d₀ ≠ '0')
    (hds : ∀ d ∈ ds, decCond d = true) (hc : decCond c = false) :
    (scannerOf (d₀ :: ds ++ c :: rest)).Scan =
      .ok (⟨⟨⟨0, 0, 0⟩, ⟨ds.length + 1, 0, ds.length + 1⟩⟩, .Int .DEC, d₀ :: ds⟩,
           ⟨⟨⟨ds.length + 1, 0, ds.length + 1⟩, d₀ :: ds ++ c :: rest⟩,
            ['(', ')', '[', ']', '\x7b', '\x7d', ',', ';', '/', '\n'],
            [' ', '\t', '\r']⟩) := by
  have hskip : (scannerOf (d₀ :: ds ++ c :: rest)).SkipWhitespaces =
      .ok (scannerOf (d₀ :: ds ++ c :: rest)) := by
    unfold BasicScanner.SkipWhitespaces BasicScanner.fuel BufferScanner.fuel
    exact runLoop_stop _ _ _ d₀
      (sGetCharAt _ [] (ds ++ c :: rest) d₀ rfl rfl) (decCond_not_ws h0)
  unfold BasicScanner.Scan
  rw [hskip]
  dsimp only
  rw [show scannerOf (d₀ :: ds ++ c :: rest) =
    (⟨⟨⟨0, 0, 0⟩, d₀ :: ds ++ c :: rest⟩,
      ['(', ')', '[', ']', '\x7b', '\x7d', ',', ';', '/', '\n'],
      [' ', '\t', '\r']⟩ : BasicScanner) from rfl]
  rw [sGetCharAt _ [] (ds ++ c :: rest) d₀ rfl rfl]
  dsimp only
  rw [decCond_not_alpha h0, decCond_isNumeric h0]
  simp only [Bool.false_eq_true, if_false, if_true]
  unfold BasicScanner.ScanDigit
  rw [sMoveAtN _ [] (ds ++ c :: rest) d₀ rfl rfl (decCond_ne_nl h0)]
  dsimp only
  split
  · exact absurd rfl hne
  · unfold BasicScanner.ScanDec
    dsimp only [BasicScanner.GetPos]
    rw [runLoop_run decCond (d₀ :: ds) _ _ [] c rest (by simp) rfl
        (by intro d hd
            rcases List.mem_cons.mp hd with h | h
            · subst h; exact h0
            · exact hds _ h)
        (by intro d hd
            rcases List.mem_cons.mp hd with h | h
            · subst h; exact decCond_ne_nl h0
            · exact decCond_ne_nl (hds _ h)) hc
        (by unfold BasicScanner.fuel BufferScanner.fuel; simp; omega)]
    dsimp only [BasicScanner.GetPos]
    simp only [List.length_cons, List.length_nil, Nat.zero_add]
    rw [show collectFromTo (d₀ :: ds ++ c :: rest) 0 (ds.length + 1) = d₀ :: ds from by
      have h := collect_run [] (d₀ :: ds) (c :: rest)
      simpa using h]

theorem c4_integer_literal_scan :
    (∀ (ds rest : List Char) (c : Char),
      (∀ d ∈ ds, hexCond d = true) → hexCond c = false →
      ((scannerOf ('0' :: 'x' :: ds ++ c :: rest)).Scan.map fun r =>
        (r.1.Kind, r.1.Literal, r.1.Pos.Begin.Offset, r.1.Pos.End.Offset, r.2.GetPos.Offset)) =
      .ok (.Int .HEX, ds, 2, 2 + ds.length, 2 + ds.length))
    ∧ (∀ (ds rest : List Char) (c : Char),
      (∀ d ∈ ds, octCond d = true) → octCond c = false →
      ((scannerOf ('0' :: 'o' :: ds ++ c :: rest)).Scan.map fun r =>
        (r.1.Kind, r.1.Literal, r.1.Pos.Begin.Offset, r.1.Pos.End.Offset, r.2.GetPos.Offset)) =
      .ok (.Int .OCT, ds, 2, 2 + ds.length, 2 + ds.length))
    ∧ (∀ (ds rest : List Char) (c : Char),
      (∀ d ∈ ds, binCond d = true) → binCond c = false →
      ((scannerOf ('0' :: 'b' :: ds ++ c :: rest)).Scan.map fun r =>
        (r.1.Kind, r.1.Literal, r.1.Pos.Begin.Offset, r.1.Pos.End.Offset, r.2.GetPos.Offset)) =
      .ok (.Int .BIN, ds, 2, 2 + ds.length, 2 + ds.length))
    ∧ (∀ (d₀ : Char) (ds rest : List Char) (c : Char),
      decCond d₀ = true → d₀ ≠ '0' →
      (∀ d ∈ ds, decCond d = true) → decCond c = false →
      ((scannerOf (d₀ :: ds ++ c :: rest)).Scan.map fun r =>
        (r.1.Kind, r.1.Literal, r.1.Pos.Begin.Offset, r.1.Pos.End.Offset, r.2.GetPos.Offset)) =
      .ok (.Int .DEC, d₀ :: ds, 0, ds.length + 1, ds.length + 1)) := by
  refine ⟨?_, ?_, ?_, ?_⟩
  · intro ds rest c h1 h2
    rw [scanHexFull ds rest c h1 h2]
    rfl
  · intro ds rest c h1 h2
    rw [scanOctFull ds rest c h1 h2]
    rfl
  · intro ds rest c h1 h2
    rw [scanBinFull ds rest c h1 h2]
    rfl
  · intro d₀ ds rest c h0 hne h1 h2
    rw [scanDecFull d₀ ds rest c h0 hne h1 h2]
    rfl

theorem c4_integer_literal_scan_witness :
    ((scannerOf ['0', 'x', '1', 'f', ';']).Scan.map fun r =>
      (r.1.Kind, r.1.Literal, r.1.Pos.Begin.Offset, r.1.Pos.End.Offset, r.2.GetPos.Offset)) =
      .ok (.Int .HEX, ['1', 'f'], 2, 2 + 2, 2 + 2)
    ∧ ((scannerOf ['7', '2', ';']).Scan.map fun r =>
      (r.1.Kind, r.1.Literal, r.1.Pos.Begin.Offset, r.1.Pos.End.Offset, r.2.GetPos.Offset)) =
      .ok (.Int .DEC, ['7', '2'], 0, 1 + 1, 1 + 1) :=
  ⟨by
    have h := c4_integer_literal_scan.1 ['1', 'f'] [] ';' (by decide) (by decide)
    simpa using h,
   by
    have h := c4_integer_literal_scan.2.2.2 '7' ['2'] [] ';' (by decide) (by decide)
      (by decide) (by decide)
    simpa using h⟩

theorem sMoveDrop (s : BasicScanner) (ch : Char) (rest : List Char)
    (hdrop : s.BS.Buffer.drop s.BS.Pos.Offset = ch :: rest)
    (hoff : s.BS.Pos.Offset ≤ s.BS.Buffer.length) :
    s.Move = .ok (ch, ⟨⟨if ch = '\n' then ⟨s.BS.Pos.Offset + 1, s.BS.Pos.Line + 1, 0⟩
      else ⟨s.BS.Pos.Offset + 1, s.BS.Pos.Line, s.BS.Pos.Column + 1⟩,
      s.BS.Buffer⟩, s.Delimiters, s.Whitespaces⟩) := by
  have hbuf : s.BS.Buffer = s.BS.Buffer.take s.BS.Pos.Offset ++ ch :: rest := by
    conv_lhs => rw [← List.take_append_drop s.BS.Pos.Offset s.BS.Buffer]
    rw [hdrop]
  have hlen : (s.BS.Buffer.take s.BS.Pos.Offset).length = s.BS.Pos.Offset := by
    simp [List.length_take]
    omega
  rw [sMoveAt s _ rest ch hbuf hlen.symm]

theorem sMoveEnd (s : BasicScanner)
    (hdrop : s.BS.Buffer.drop s.BS.Pos.Offset = [])
    (hoff : s.BS.Pos.Offset ≤ s.BS.Buffer.length) :
    s.Move = .error (.EOF ⟨s.BS.Pos⟩) := by
  have heql : s.BS.Pos.Offset = s.BS.Buffer.length := by
    have h := List.drop_eq_nil_iff.mp hdrop
    omega
  unfold BasicScanner.Move BufferScanner.Move BufferScanner.GetChar
  rw [if_pos heql]

theorem dropSucc (buffer : List Char) (off : Nat) (ch : Char) (rest : List Char)
    (hdrop : buffer.drop off = ch :: rest) :
    buffer.drop (off + 1) = rest := by
  rw [← List.drop_drop 1 off buffer, hdrop]
  rfl

theorem moveN_ok : ∀ (n : Nat) (s : BasicScanner),
    s.BS.Pos.Offset ≤ s.BS.Buffer.length →
    n ≤ s.BS.Buffer.length - s.BS.Pos.Offset →
    ∃ pos' : Position, moveN n s = .ok ((s.BS.Buffer.drop s.BS.Pos.Offset).take n,
        ⟨⟨pos', s.BS.Buffer⟩, s.Delimiters, s.Whitespaces⟩) ∧
      pos'.Offset = s.BS.Pos.Offset + n := by
  intro n
  induction n with
  | zero =>
    intro s hoff hn
    refine ⟨s.BS.Pos, ?_, by omega⟩
    simp [moveN]
  | succ n ih =>
    intro s hoff hn
    have hlt : s.BS.Pos.Offset < s.BS.Buffer.length := by omega
    obtain ⟨ch, rest, hdrop⟩ : ∃ ch rest, s.BS.Buffer.drop s.BS.Pos.Offset = ch :: rest := by
      cases hd : s.BS.Buffer.drop s.BS.Pos.Offset with
      | nil =>
        exfalso
        have h := List.drop_eq_nil_iff.mp hd
        omega
      | cons a l => exact ⟨a, l, rfl⟩
    unfold moveN
    rw [sMoveDrop s ch rest hdrop hoff]
    dsimp only
    set pos₁ : Position := if ch = '\n' then ⟨s.BS.Pos.Offset + 1, s.BS.Pos.Line + 1, 0⟩
      else ⟨s.BS.Pos.Offset + 1, s.BS.Pos.Line, s.BS.Pos.Column + 1⟩ with hpos₁
    have hoff₁ : pos₁.Offset = s.BS.Pos.Offset + 1 := by
      rw [hpos₁]; split <;> rfl
    obtain ⟨pos', hmov, hoffp⟩ := ih ⟨⟨pos₁, s.BS.Buffer⟩, s.Delimiters, s.Whitespaces⟩
      (by dsimp only; omega) (by dsimp only; omega)
    dsimp only at hmov hoffp
    rw [hmov]
    have hdrop₁ : s.BS.Buffer.drop pos₁.Offset = rest := by
      rw [hoff₁]
      exact dropSucc _ _ ch rest hdrop
    rw [hdrop₁, hdrop]
    refine ⟨pos', by rfl, by omega⟩

theorem moveN_eof : ∀ (n : Nat) (s : BasicScanner),
    s.BS.Pos.Offset ≤ s.BS.Buffer.length →
    s.BS.Buffer.length - s.BS.Pos.Offset < n →
    ∃ e, moveN n s = .error (.EOF e) := by
  intro n
  induction n with
  | zero => intro s hoff hn; omega
  | succ n ih =>
    intro s hoff hn
    by_cases hend : s.BS.Pos.Offset = s.BS.Buffer.length
    · refine ⟨⟨s.BS.Pos⟩, ?_⟩
      unfold moveN
      rw [sMoveEnd s (List.drop_eq_nil_iff.mpr (by omega)) hoff]
    · have hlt : s.BS.Pos.Offset < s.BS.Buffer.length := by omega
      obtain ⟨ch, rest, hdrop⟩ : ∃ ch rest, s.BS.Buffer.drop s.BS.Pos.Offset = ch :: rest := by
        cases hd : s.BS.Buffer.drop s.BS.Pos.Offset with
        | nil =>
          exfalso
          have h := List.drop_eq_nil_iff.mp hd
          omega
        | cons a l => exact ⟨a, l, rfl⟩
      unfold moveN
      rw [sMoveDrop s ch rest hdrop hoff]
      dsimp only
      set pos₁ : Position := if ch = '\n' then ⟨s.BS.Pos.Offset + 1, s.BS.Pos.Line + 1, 0⟩
        else ⟨s.BS.Pos.Offset + 1, s.BS.Pos.Line, s.BS.Pos.Column + 1⟩ with hpos₁
      have hoff₁ : pos₁.Offset = s.BS.Pos.Offset + 1 := by
        rw [hpos₁]; split <;> rfl
      obtain ⟨e, hmov⟩ := ih ⟨⟨pos₁, s.BS.Buffer⟩, s.Delimiters, s.Whitespaces⟩
        (by dsimp only; omega) (by dsimp only; omega)
      rw [hmov]
      exact ⟨e, rfl⟩

theorem scanUnicodeHex_out (n : Nat) (s₁ : BasicScanner) (base : Nat)
    (hoff : s₁.BS.Pos.Offset ≤ s₁.BS.Buffer.length)
    (hbase : s₁.BS.Pos.Offset = base + 1) :
    escOutcome base (s₁.ScanUnicodeHex n) = escHex n (s₁.BS.Buffer.drop s₁.BS.Pos.Offset) := by
  unfold BasicScanner.ScanUnicodeHex escHex
  by_cases hn : n ≤ s₁.BS.Buffer.length - s₁.BS.Pos.Offset
  · obtain ⟨pos', hmov, hoffp⟩ := moveN_ok n s₁ hoff hn
    rw [hmov]
    rw [if_neg (by simp [List.length_drop]; omega)]
    dsimp only
    cases hparse : u32FromStrRadix16 ((s₁.BS.Buffer.drop s₁.BS.Pos.Offset).take n) with
    | none => rfl
    | some v =>
      dsimp only
      cases hcf : charFromU32 v with
      | none =>
        try rw [hcf]
        rfl
      | some c =>
        try rw [hcf]
        unfold escOutcome
        dsimp only [BasicScanner.GetPos]
        rw [show pos'.Offset - base = 1 + n from by omega]
  · obtain ⟨e, hmov⟩ := moveN_eof n s₁ hoff (by omega)
    rw [hmov]
    rw [if_pos (by simp [List.length_drop]; omega)]
    rfl

theorem escape_decode_equiv (quote : Char) (s : BasicScanner)
    (hoff : s.BS.Pos.Offset ≤ s.BS.Buffer.length) :
    escOutcome s.BS.Pos.Offset (s.ScanEscapeChar quote) =
      escDecode quote (s.BS.Buffer.drop s.BS.Pos.Offset) := by
  unfold BasicScanner.ScanEscapeChar
  cases hdrop : s.BS.Buffer.drop s.BS.Pos.Offset with
  | nil =>
    rw [sMoveEnd s hdrop hoff]
    rfl
  | cons ch rest =>
    have hlt : s.BS.Pos.Offset < s.BS.Buffer.length := by
      have h := congrArg List.length hdrop
      simp [List.length_drop] at h
      omega
    have hdrop₁ : s.BS.Buffer.drop (s.BS.Pos.Offset + 1) = rest :=
      dropSucc _ _ ch rest hdrop
    rw [sMoveDrop s ch rest hdrop hoff]
    dsimp only
    split
    · rw [if_neg (by decide)]
      unfold escOutcome escDecode
      dsimp only [BasicScanner.GetPos]
      rw [if_pos rfl, show s.BS.Pos.Offset + 1 - s.BS.Pos.Offset = 1 from by omega]
    · rw [if_neg (by decide)]
      unfold escOutcome escDecode
      dsimp only [BasicScanner.GetPos]
      rw [if_neg (by decide), if_pos rfl,
        show s.BS.Pos.Offset + 1 - s.BS.Pos.Offset = 1 from by omega]
    · rw [if_neg (by decide)]
      unfold escOutcome escDecode
      dsimp only [BasicScanner.GetPos]
      rw [if_neg (by decide), if_neg (by decide), if_pos rfl,
        show s.BS.Pos.Offset + 1 - s.BS.Pos.Offset = 1 from by omega]
    · rw [if_neg (by decide)]
      unfold escOutcome escDecode
      dsimp only [BasicScanner.GetPos]
      rw [if_neg (by decide), if_neg (by decide), if_neg (by decide), if_pos rfl,
        show s.BS.Pos.Offset + 1 - s.BS.Pos.Offset = 1 from by omega]
    · rw [if_neg (by decide)]
      rw [scanUnicodeHex_out 2 _ s.BS.Pos.Offset (by dsimp only; omega) (by dsimp only)]
      dsimp only
      rw [hdrop₁]
      unfold escDecode
      dsimp only
      rw [if_neg (by decide), if_neg (by decide), if_neg (by decide), if_neg (by decide),
        if_pos rfl]
    · rw [if_neg (by decide)]
      rw [scanUnicodeHex_out 4 _ s.BS.Pos.Offset (by dsimp only; omega) (by dsimp only)]
      dsimp only
      rw [hdrop₁]
      unfold escDecode
      dsimp only
      rw [if_neg (by decide), if_neg (by decide), if_neg (by decide), if_neg (by decide),
        if_neg (by decide), if_pos rfl]
    · rw [if_neg (by decide)]
      rw [scanUnicodeHex_out 8 _ s.BS.Pos.Offset (by dsimp only; omega) (by dsimp only)]
      dsimp only
      rw [hdrop₁]
      unfold escDecode
      dsimp only
      rw [if_neg (by decide), if_neg (by decide), if_neg (by decide), if_neg (by decide),
        if_neg (by decide), if_neg (by decide), if_pos rfl]
    · rename_i h1 h2 h3 h4 h5 h6 h7
      unfold escDecode
      dsimp only
      rw [if_neg h1, if_neg h2, if_neg h3, if_neg h4, if_neg h5, if_neg h6, if_neg h7]
      by_cases hq : ch = quote
      · rw [if_pos hq, if_pos hq]
        unfold escOutcome
        dsimp only [BasicScanner.GetPos]
        have hone : (if ch = '\n' then (⟨s.BS.Pos.Offset + 1, s.BS.Pos.Line + 1, 0⟩ : Position)
            else ⟨s.BS.Pos.Offset + 1, s.BS.Pos.Line, s.BS.Pos.Column + 1⟩).Offset
            = s.BS.Pos.Offset + 1 := by
          split <;> rfl
        rw [hone, show s.BS.Pos.Offset + 1 - s.BS.Pos.Offset = 1 from by omega]
      · rw [if_neg hq, if_neg hq]
        rfl

theorem c6_escape_decode_equiv :
    (∀ (quote : Char) (s : BasicScanner),
      s.BS.Pos.Offset ≤ s.BS.Buffer.length →
      escOutcome s.BS.Pos.Offset (s.ScanEscapeChar quote) =
        escDecode quote (s.BS.Buffer.drop s.BS.Pos.Offset))
    ∧ (((scannerOf ['n']).ScanEscapeChar '"').map fun r => (r.1.toNat, r.2.GetPos.Offset)) =
      .ok (10, 1)
    ∧ (((scannerOf ['t']).ScanEscapeChar '"').map fun r => (r.1.toNat, r.2.GetPos.Offset)) =
      .ok (9, 1)
    ∧ (((scannerOf ['r']).ScanEscapeChar '"').map fun r => (r.1.toNat, r.2.GetPos.Offset)) =
      .ok (13, 1)
    ∧ (((scannerOf ['\\']).ScanEscapeChar '"').map fun r => (r.1.toNat, r.2.GetPos.Offset)) =
      .ok (92, 1)
    ∧ (((scannerOf ['"']).ScanEscapeChar '"').map fun r => (r.1.toNat, r.2.GetPos.Offset)) =
      .ok (34, 1)
    ∧ (((scannerOf ['\'']).ScanEscapeChar '\'').map fun r => (r.1.toNat, r.2.GetPos.Offset)) =
      .ok (39, 1)
    ∧ (((scannerOf ['x', 'F', 'F']).ScanEscapeChar '"').map fun r =>
      (r.1.toNat, r.2.GetPos.Offset)) = .ok (255, 3)
    ∧ (((scannerOf ['u', '0', '0', 'E', '9']).ScanEscapeChar '"').map fun r =>
      (r.1.toNat, r.2.GetPos.Offset)) = .ok (233, 5)
    ∧ (((scannerOf ['U', '0', '0', '0', '1', 'F', '6', '0', '0']).ScanEscapeChar '"').map fun r =>
      (r.1.toNat, r.2.GetPos.Offset)) = .ok (128512, 9)
    ∧ (∃ e, (scannerOf ['q']).ScanEscapeChar '"' = .error (.BadFormat e))
    ∧ (∃ e, (scannerOf ['x', '1']).ScanEscapeChar '"' = .error (.EOF e))
    ∧ (∃ e, (scannerOf ['x', '5', 'g']).ScanEscapeChar '"' = .error (.BadFormat e))
    ∧ (∃ e, (scannerOf ['u', 'd', '8', '0', '0']).ScanEscapeChar '"' = .error (.BadFormat e)) := by
  refine ⟨fun quote s h => escape_decode_equiv quote s h,
    rfl, rfl, rfl, rfl, rfl, rfl, rfl, rfl, rfl, ⟨_, rfl⟩, ⟨_, rfl⟩, ⟨_, rfl⟩, ⟨_, rfl⟩⟩

/-- Witness for C6: decoding the escape body `n` from offset 0 produces
LF with one character consumed, through the equivalence. -/
theorem c6_escape_decode_equiv_witness :
    escOutcome (scannerOf ['n']).BS.Pos.Offset ((scannerOf ['n']).ScanEscapeChar '"') =
      EscOut.ok '\n' 1 :=
  (c6_escape_decode_equiv.1 '"' (scannerOf ['n']) (by decide)).trans (by decide)

theorem scanCharLit (q c : Char) (rest : List Char)
    (hqq : q = '"' ∨ q = '\'')
    (hq : c ≠ q) (hbs : c ≠ '\\') (hnl : c ≠ '\n') :
    ((scannerOf (q :: c :: q :: rest)).Scan.map fun r =>
      (r.1.Kind, r.1.Literal, r.2.GetPos.Offset)) = .ok (.String, [c], 3) := by
  have hqnl : q ≠ '\n' := by rcases hqq with rfl | rfl <;> decide
  have hwsq : ([' ', '\t', '\r'].contains q) = false := by
    rcases hqq with rfl | rfl <;> rfl
  have hskip : (scannerOf (q :: c :: q :: rest)).SkipWhitespaces =
      .ok (scannerOf (q :: c :: q :: rest)) := by
    unfold BasicScanner.SkipWhitespaces BasicScanner.fuel BufferScanner.fuel
    exact runLoop_stop _ _ _ q (sGetCharAt _ [] (c :: q :: rest) q rfl rfl) hwsq
  have hmain : (scannerOf (q :: c :: q :: rest)).Scan =
      BasicScanner.ScanString q
        (⟨⟨⟨0, 0, 0⟩, q :: c :: q :: rest⟩,
          ['(', ')', '[', ']', '\x7b', '\x7d', ',', ';', '/', '\n'],
          [' ', '\t', '\r']⟩ : BasicScanner) := by
    unfold BasicScanner.Scan
    rw [hskip]
    dsimp only
    rw [sGetCharAt _ [] (c :: q :: rest) q rfl rfl]
    rcases hqq with rfl | rfl <;> rfl
  rw [hmain]
  unfold BasicScanner.ScanString
  rw [sMoveAtN _ [] (c :: q :: rest) q rfl rfl hqnl]
  dsimp only
  simp only [Nat.zero_add]
  rw [show ((⟨⟨⟨1, 0, 1⟩, q :: c :: q :: rest⟩,
      ['(', ')', '[', ']', '\x7b', '\x7d', ',', ';', '/', '\n'],
      [' ', '\t', '\r']⟩ : BasicScanner)).fuel = (rest.length + 2) + 1 from by
    unfold BasicScanner.fuel BufferScanner.fuel
    simp]
  unfold scanStringLoop
  rw [sMoveAtN _ [q] (q :: rest) c (by simp) rfl hnl]
  dsimp only
  rw [if_neg hbs, if_neg hq]
  rw [show rest.length + 2 = (rest.length + 1) + 1 from rfl]
  unfold scanStringLoop
  rw [sMoveAtN _ [q, c] rest q (by simp) rfl hqnl]
  dsimp only
  rcases hqq with rfl | rfl
  · rw [if_neg (show ¬ (('"' : Char) = '\\') from by decide),
      if_pos (show (('"' : Char) = '"') from rfl)]
    rfl
  · rw [if_neg (show ¬ (('\'' : Char) = '\\') from by decide),
      if_pos (show (('\'' : Char) = '\'') from rfl)]
    rfl

theorem c9_quoted_literal_kind :
    (∀ (c : Char) (rest : List Char), c ≠ '\'' → c ≠ '\\' → c ≠ '\n' →
      ((scannerOf ('\'' :: c :: '\'' :: rest)).Scan.map fun r =>
        (r.1.Kind, r.1.Literal, r.2.GetPos.Offset)) = .ok (.String, [c], 3))
    ∧ (∀ (c : Char) (rest : List Char), c ≠ '"' → c ≠ '\\' → c ≠ '\n' →
      ((scannerOf ('"' :: c :: '"' :: rest)).Scan.map fun r =>
        (r.1.Kind, r.1.Literal, r.2.GetPos.Offset)) = .ok (.String, [c], 3))
    ∧ ((scannerOf ['\'', '\\', 'n', '\'']).Scan.map fun r => (r.1.Kind, r.1.Literal)) =
      .ok (.String, ['\n'])
    ∧ ((scannerOf ['"', '\\', 'n', '"']).Scan.map fun r => (r.1.Kind, r.1.Literal)) =
      .ok (.String, ['\n']) := by
  refine ⟨fun c rest h1 h2 h3 => scanCharLit '\'' c rest (Or.inr rfl) h1 h2 h3,
          fun c rest h1 h2 h3 => scanCharLit '"' c rest (Or.inl rfl) h1 h2 h3, rfl, rfl⟩

/-- Witness for C9: the single-quoted literal `'a'` scans to kind
`String` with decoded literal `a`, three characters consumed. -/
theorem c9_quoted_literal_kind_witness :
    ((scannerOf ('\'' :: 'a' :: '\'' :: [])).Scan.map fun r =>
      (r.1.Kind, r.1.Literal, r.2.GetPos.Offset)) = .ok (.String, ['a'], 3) :=
  c9_quoted_literal_kind.1 'a' [] (by decide) (by decide) (by decide)
